import Mathlib

/-!
Verification of the `filesystem` repository: a shallow embedding of the
path utilities (`filesystem/filesystem_interface.py`, `filesystem/util.py`),
the in-memory backend (`filesystem/inmem_filesystem.py`), the disk backend's
listing and removal logic (`filesystem/disk_filesystem.py`), and the cloning
wrapper (`filesystem/cloning_filesystem.py`).

Bytes are modelled as `List Nat`, timestamps as `Int`, Python exceptions as
an explicit error type.  Python's `dict` (which preserves insertion order)
is modelled as an association list where insertion replaces in place or
appends, and deletion filters the key out.
-/

namespace FSRepo

deriving instance DecidableEq for Except

/-- The Python exception kinds the modelled code can raise.  The `os*`
constructors are all `OSError`s (the class the code catches in
`exists`/`isdir`/`isfile` and in `CloningFileSystem.get`); the remaining
constructors are other exception classes. -/
inductive Err where
  /-- `OSError("Invalid path: ...")` from `FileSystem._normalizePath`. -/
  | osInvalidPath
  /-- `OSError(".. (not a directory)")` from `InMemFileSystem._walkTo`. -/
  | osNotADirectory
  /-- `OSError("Path does not exist: ...")` from `InMemFileSystem._walkTo`. -/
  | osDoesNotExist
  /-- `OSError("Cannot set '...'")` from `InMemFileSystem.set` on an empty path. -/
  | osCannotSet
  /-- `OSError("Cannot remove '...'")` from `rm` on an empty path. -/
  | osCannotRemove
  /-- `OSError("Failed to remove '...': does not exist")`. -/
  | osRmDoesNotExist
  /-- `OSError("Failed to remove '...': Directory not empty")`. -/
  | osNotEmpty
  /-- `OSError("Path is not a file: ...")` from `get`/`getInto`. -/
  | osNotAFile
  /-- `OSError("Not a directory '...'")` from `listdir`. -/
  | osNotDirListdir
  /-- `OSError("File not found: ...")` from `DiskFileSystem.get`. -/
  | osFileNotFound
  /-- `TypeError("Invalid type for content argument: ...")`. -/
  | typeErrorContent
  /-- `TypeError` from assigning into `bytes` (`parentDir.contents[filename] = ...`
  when the parent metadata is a file). -/
  | typeErrorItemAssign
  /-- `TypeError("Cannot ... byte-stream that is not seekable ...")`. -/
  | typeErrorNotSeekable
  /-- `ValueError("... byte-stream that is not at position 0")`. -/
  | valueErrorPosition
  /-- `IndexError` from `pathVec[-1]` when `pathVec` is empty. -/
  | indexError
  /-- `AttributeError` from calling `.read`/`.tell` on an object without it. -/
  | attributeError
  /-- `Exception("Unsafe path detected: ...")` from `DiskFileSystem._rooted`. -/
  | unsafePathDetected
  deriving DecidableEq, Repr

/-- Whether the exception is an `OSError` (caught by `except OSError`). -/
def Err.isOSError : Err → Bool
  | .osInvalidPath | .osNotADirectory | .osDoesNotExist | .osCannotSet
  | .osCannotRemove | .osRmDoesNotExist | .osNotEmpty | .osNotAFile
  | .osNotDirListdir | .osFileNotFound => true
  | .typeErrorContent | .typeErrorItemAssign | .typeErrorNotSeekable
  | .valueErrorPosition | .indexError | .attributeError
  | .unsafePathDetected => false

/-! ## Path utilities (`FileSystem` static helpers) -/

/-- `FileSystem._stripSeps`: `path.lstrip("/").rstrip("/")`. -/
def stripSeps (s : String) : String :=
  String.mk (((s.toList.dropWhile (· = '/')).reverse.dropWhile (· = '/')).reverse)

/-- Python's `s.split("/")` on the character list: splitting the empty string
yields `[""]`, and every separator starts a new group. -/
def splitSlashChars : List Char → List (List Char)
  | [] => [[]]
  | c :: rest =>
    if c = '/' then [] :: splitSlashChars rest
    else
      match splitSlashChars rest with
      | [] => [[c]]
      | g :: gs => (c :: g) :: gs

/-- Python's `s.split("/")`. -/
def splitSlash (s : String) : List String := (splitSlashChars s.toList).map String.mk

/-- Python's `s.startswith("..")`. -/
def startsWithDotDot (s : String) : Bool :=
  match s.toList with
  | '.' :: '.' :: _ => true
  | _ => false

/-- The component-resolution step of `os.path.relpath`/`os.path.normpath` on a
relative path: empty and `"."` components are dropped, `".."` pops the previous
component unless there is none or it is itself `".."`, in which case it is kept
(leading `".."`s survive). -/
def normParts (parts : List String) : List String :=
  parts.foldl
    (fun acc comp =>
      if comp = "" ∨ comp = "." then acc
      else if comp = ".." then
        if acc ≠ [] ∧ acc.getLast? ≠ some ".." then acc.dropLast else acc ++ [".."]
      else acc ++ [comp])
    []

/-- Join components with `/`, yielding `"."` for the empty list (as
`os.path.relpath` and `os.path.normpath` do for a relative path). -/
def joinParts (parts : List String) : String :=
  if parts = [] then "." else String.intercalate "/" parts

/-- `FileSystem.splitPath` (via `_normalizePath`): strip separators, normalize
with `os.path.relpath`, raise `OSError` when the result escapes the root
(starts with `".."`), then split on `/` keeping nonempty components.
Note the quirk that `splitPath(".") = ["."]` (and `splitPath("a/..") = ["."]`),
because `os.path.relpath` returns `"."` for them and `"."` survives the final
nonempty-component filter. -/
def splitPathE (path : String) : Except Err (List String) :=
  let s1 := stripSeps path
  if s1 = "" then .ok []
  else
    let r := stripSeps (joinParts (normParts (splitSlash s1)))
    if startsWithDotDot r then .error .osInvalidPath
    else .ok ((splitSlash r).filter (· ≠ ""))

/-- `FileSystem.joinPaths("", path, file)` as used by `_listdir` to build full
result paths: strip separators from the components, join and normalize with
`os.path.normpath`, with a `"."` result collapsing to `""`. -/
def joinPaths0 (path file : String) : String :=
  let parts := normParts (splitSlash (stripSeps path) ++ splitSlash (stripSeps file))
  if parts = [] then "" else String.intercalate "/" parts

/-! ## The in-memory tree (`_Metadata`) -/

mutual

/-- `_Metadata`: a node is a file (kind `FILE`, with `modtime`, `size`, byte
`contents`) or a directory (kind `DIR`, `modtime`, dict `contents`; its stored
`size` is always the constant 4096 set by `_Metadata._newDir`, so it is not a
field here and `getsize` returns 4096 for directories).  The directory dict is
the mutually inductive `EntryList`, an insertion-ordered association list — a
faithful model of a Python `dict` (unique keys, insertion order preserved). -/
inductive Node where
  | file (modtime : Int) (size : Nat) (data : List Nat)
  | dir (modtime : Int) (entries : EntryList)

/-- The contents dict of a directory `_Metadata`: name-to-node bindings in
insertion order. -/
inductive EntryList where
  | nil
  | cons (name : String) (node : Node) (rest : EntryList)
end

/-- `_Metadata._newFile(data)`: kind FILE, `size = len(data)`. -/
def newFile (now : Int) (data : List Nat) : Node := .file now data.length data

/-- `_Metadata._newDir()`: kind DIR with empty contents. -/
def newDir (now : Int) : Node := .dir now .nil

def Node.isDir : Node → Bool
  | .dir .. => true
  | .file .. => false

def Node.isFile : Node → Bool
  | .file .. => true
  | .dir .. => false

/-- `dict == {}`. -/
def EntryList.isEmpty : EntryList → Bool
  | .nil => true
  | .cons .. => false

/-- Dict lookup `segment in fs` / `fs[segment]`. -/
def lookupEntry (es : EntryList) (k : String) : Option Node :=
  match es with
  | .nil => none
  | .cons k' v rest => if k' = k then some v else lookupEntry rest k

/-- Dict assignment `fs[k] = v`: replace in place if present, else append
(Python dicts preserve insertion order). -/
def insertEntry (es : EntryList) (k : String) (v : Node) : EntryList :=
  match es with
  | .nil => .cons k v .nil
  | .cons k' v' rest =>
      if k' = k then .cons k v rest else .cons k' v' (insertEntry rest k v)

/-- Dict deletion `del fs[k]` (keys are unique). -/
def eraseEntry (es : EntryList) (k : String) : EntryList :=
  match es with
  | .nil => .nil
  | .cons k' v' rest =>
      if k' = k then eraseEntry rest k else .cons k' v' (eraseEntry rest k)

/-- `InMemFileSystem._walkTo(pathVec)` without `createAsWeGo`: step through the
tree; stepping *into* a segment requires the current node to be a directory
containing it.  The node finally reached is returned unchecked (it may be a
file even when the caller expects a directory). -/
def walkTo (n : Node) (vec : List String) : Except Err Node :=
  match vec with
  | [] => .ok n
  | seg :: rest =>
    match n with
    | .file .. => .error .osNotADirectory
    | .dir _ es =>
      match lookupEntry es seg with
      | none => .error .osDoesNotExist
      | some child => walkTo child rest

/-- `InMemFileSystem._walkTo` rebuilt functionally: walk `vec` (creating
missing directories with `_Metadata._newDir()` when `create` is set, exactly
as `createAsWeGo` does) and apply `f` to the node reached, rebuilding the
tree on the way out.  Returns the new root. -/
def updateAt (create : Bool) (now : Int) (f : Node → Except Err Node) :
    Node → List String → Except Err Node
  | n, [] => f n
  | n, seg :: rest =>
    match n with
    | .file .. => .error .osNotADirectory
    | .dir mt es =>
      match lookupEntry es seg with
      | some child =>
          (updateAt create now f child rest).map
            (fun c => .dir mt (insertEntry es seg c))
      | none =>
          if create then
            (updateAt create now f (newDir now) rest).map
              (fun c => .dir mt (insertEntry es seg c))
          else .error .osDoesNotExist

/-! ## Byte streams and content arguments -/

/-- A seekable-or-not in-memory byte stream (`io.BytesIO` or a file-like
object).  `seekable` models both `hasattr(s, "seekable") and s.seekable()`
and whether `tell()` succeeds (the cloning wrapper treats a failing `tell()`
as non-seekable). -/
structure ByteStream where
  data : List Nat
  pos : Nat
  seekable : Bool

/-- `s.read()`: return everything from the current position and leave the
position at the end of the stream. -/
def ByteStream.readAll (s : ByteStream) : List Nat × ByteStream :=
  (s.data.drop s.pos, { s with pos := s.data.length })

/-- `s.write(d)` with `BytesIO` semantics: overwrite `len(d)` bytes starting
at the current position (zero-filling any gap beyond the end), keep the tail,
advance the position. -/
def ByteStream.write (s : ByteStream) (d : List Nat) : ByteStream :=
  { s with
    data := s.data.take s.pos ++ List.replicate (s.pos - s.data.length) 0 ++
      d ++ s.data.drop (s.pos + d.length)
    pos := s.pos + d.length }

/-- `s.seek(p)`. -/
def ByteStream.seek (s : ByteStream) (p : Nat) : ByteStream := { s with pos := p }

/-- The `content` argument of `set`: `bytes`, an object with a `read` method
(a byte stream), or anything else (which trips the `TypeError` branch). -/
inductive Content where
  | bytes (data : List Nat)
  | stream (s : ByteStream)
  | other

/-- The `isinstance(content, bytes)` / `hasattr(content, "read")` dispatch of
`InMemFileSystem.set`: the payload that ends up in the file, together with the
content after the read (a stream is left at its end). -/
def contentRead : Content → List Nat × Content
  | .bytes d => (d, .bytes d)
  | .stream s => let (d, s') := s.readAll; (d, .stream s')
  | .other => ([], .other)

/-! ## `InMemFileSystem` operations -/

/-- `exists`: `_walkTo(path)` with `except OSError: return False`.  Both
`splitPath` and `_walkTo` only raise `OSError`s, so every failure is caught. -/
def existsOp (root : Node) (path : String) : Bool :=
  match splitPathE path with
  | .error _ => false
  | .ok vec =>
    match walkTo root vec with
    | .ok _ => true
    | .error _ => false

/-- `isdir`: like `exists` but checks `meta.kind == DIR`. -/
def isdirOp (root : Node) (path : String) : Bool :=
  match splitPathE path with
  | .error _ => false
  | .ok vec =>
    match walkTo root vec with
    | .ok n => n.isDir
    | .error _ => false

/-- `isfile`: like `exists` but checks `meta.kind == FILE`. -/
def isfileOp (root : Node) (path : String) : Bool :=
  match splitPathE path with
  | .error _ => false
  | .ok vec =>
    match walkTo root vec with
    | .ok n => n.isFile
    | .error _ => false

/-- `getmtime`: `_walkTo(path).modtime` (errors propagate). -/
def getmtimeOp (root : Node) (path : String) : Except Err Int :=
  match splitPathE path with
  | .error e => .error e
  | .ok vec =>
    match walkTo root vec with
    | .error e => .error e
    | .ok (.file mt _ _) => .ok mt
    | .ok (.dir mt _) => .ok mt

/-- `getsize`: `_walkTo(path).size`; `_newDir` stores the constant 4096. -/
def getsizeOp (root : Node) (path : String) : Except Err Nat :=
  match splitPathE path with
  | .error e => .error e
  | .ok vec =>
    match walkTo root vec with
    | .error e => .error e
    | .ok (.file _ sz _) => .ok sz
    | .ok (.dir _ _) => .ok 4096

/-- `get`: `_walkTo(path)`, raise `OSError` unless the node is a file, return
its contents. -/
def getOp (root : Node) (path : String) : Except Err (List Nat) :=
  match splitPathE path with
  | .error e => .error e
  | .ok vec =>
    match walkTo root vec with
    | .error e => .error e
    | .ok (.file _ _ data) => .ok data
    | .ok (.dir _ _) => .error .osNotAFile

/-- `getInto`: `_walkTo(path)`, raise `OSError` unless a file, then
`byteStream.write(meta.contents)` — at the stream's *current* position, with
no seek and no seekability or position check. -/
def getIntoOp (root : Node) (path : String) (byteStream : ByteStream) :
    Except Err ByteStream :=
  match splitPathE path with
  | .error e => .error e
  | .ok vec =>
    match walkTo root vec with
    | .error e => .error e
    | .ok (.file _ _ data) => .ok (byteStream.write data)
    | .ok (.dir _ _) => .error .osNotAFile

/-- `InMemFileSystem.set(path, content)`, including the state left behind by a
failing call: the pair is (tree after the call, exception raised if any).
Phases exactly as in the source: (1) `if not path: raise OSError`;
(2) `splitPath` (its `OSError` propagates, and `pathVec[-1]` on an empty
vector is an `IndexError`); (3) `_walkTo(pathVec[:-1], createAsWeGo=True)` —
when this raises, no directory has been created yet (a creation can only be
followed by further creations), so the tree is unchanged; (4) the content
type dispatch, whose `TypeError` leaves the directories created in (3) in
place; (5) `parentDir.contents[filename] = _newFile(...)`, a `TypeError` when
the parent metadata is a file (item assignment into `bytes`).
The third component is the content after the call (a stream has been read). -/
def setOpFull (now : Int) (root : Node) (path : String) (content : Content) :
    Node × Option Err × Content :=
  if path = "" then (root, some .osCannotSet, content)
  else
    match splitPathE path with
    | .error e => (root, some e, content)
    | .ok vec =>
      if h : vec = [] then (root, some .indexError, content)
      else
        let parentVec := vec.dropLast
        let filename := vec.getLast h
        match updateAt true now (fun n => .ok n) root parentVec with
        | .error e => (root, some e, content)
        | .ok r1 =>
          match content with
          | .other => (r1, some .typeErrorContent, content)
          | c =>
            let (data, c') := contentRead c
            match updateAt true now
                (fun n =>
                  match n with
                  | .dir mt es => .ok (.dir mt (insertEntry es filename (newFile now data)))
                  | .file .. => .error .typeErrorItemAssign)
                root parentVec with
            | .ok r2 => (r2, none, c')
            | .error e => (r1, some e, c')

/-- `set` ignoring the returned content. -/
def setOp (now : Int) (root : Node) (path : String) (content : Content) :
    Node × Option Err :=
  ((setOpFull now root path content).1, (setOpFull now root path content).2.1)

/-- `InMemFileSystem.rm(path)`: empty-path guard, `splitPath`,
`pathVec[-1]` (`IndexError` when the vector is empty), `_walkTo(pathVec[:-1])`
without creation, the explicit parent-kind check, the membership check, and
deletion only of files and empty directories.  On failure the tree is
unchanged (`_walkTo` without `createAsWeGo` never mutates). -/
def rmOp (root : Node) (path : String) : Node × Option Err :=
  if path = "" then (root, some .osCannotRemove)
  else
    match splitPathE path with
    | .error e => (root, some e)
    | .ok vec =>
      if h : vec = [] then (root, some .indexError)
      else
        let parentVec := vec.dropLast
        let filename := vec.getLast h
        match updateAt false 0
            (fun n =>
              match n with
              | .file .. => .error .osRmDoesNotExist
              | .dir mt es =>
                match lookupEntry es filename with
                | none => .error .osRmDoesNotExist
                | some child =>
                  match child with
                  | .file .. => .ok (.dir mt (eraseEntry es filename))
                  | .dir _ ces =>
                      if ces.isEmpty then .ok (.dir mt (eraseEntry es filename))
                      else .error .osNotEmpty)
            root parentVec with
        | .ok r => (r, none)
        | .error e => (root, some e)

/-- `setmtime`: `_walkTo(path).modtime = modtime`. -/
def setmtimeOp (root : Node) (path : String) (modtime : Int) : Node × Option Err :=
  match splitPathE path with
  | .error e => (root, some e)
  | .ok vec =>
    match updateAt false 0
        (fun n =>
          match n with
          | .file _ sz d => .ok (.file modtime sz d)
          | .dir _ es => .ok (.dir modtime es))
        root vec with
    | .ok r => (r, none)
    | .error e => (root, some e)

/-- `maxEntries is not None and len(result) >= maxEntries`. -/
def atMaxEntries (maxEntries : Option Nat) (len : Nat) : Bool :=
  match maxEntries with
  | some m => if m ≤ len then true else false
  | none => false

mutual

/-- `InMemFileSystem._listdir(result, path, pathMeta, recursive, maxEntries)`:
append `joinPaths("", path, file)` for each child, pruning the whole loop once
`len(result) >= maxEntries`, and recursing into directories (passing
`maxEntries` along) when `recursive`.  The loop body's directory recursion is
split into `listdirChild` to make the mutual recursion structural. -/
def listdirAux (recursive : Bool) (maxEntries : Option Nat) :
    List String → String → EntryList → List String
  | result, _, .nil => result
  | result, path, .cons name meta rest =>
    if atMaxEntries maxEntries result.length then result
    else
      let filePath := joinPaths0 path name
      let result2 := listdirChild recursive maxEntries (result ++ [filePath]) filePath meta
      listdirAux recursive maxEntries result2 path rest

/-- `if meta.kind == DIR and recursive: self._listdir(..., maxEntries=maxEntries)`. -/
def listdirChild (recursive : Bool) (maxEntries : Option Nat) :
    List String → String → Node → List String
  | result, _, .file .. => result
  | result, filePath, .dir _ es =>
    if recursive then listdirAux recursive maxEntries result filePath es else result
end

/-- `InMemFileSystem.listdir`: `_walkTo(path)`, raise unless a directory,
then `_listdir([], path, meta, recursive, maxEntries)`. -/
def listdirOp (root : Node) (path : String) (recursive : Bool)
    (maxEntries : Option Nat) : Except Err (List String) :=
  match splitPathE path with
  | .error e => .error e
  | .ok vec =>
    match walkTo root vec with
    | .error e => .error e
    | .ok (.file ..) => .error .osNotDirListdir
    | .ok (.dir _ es) => .ok (listdirAux recursive maxEntries [] path es)

/-- The root directory of a freshly constructed `InMemFileSystem()` (the
random `/tmp/<random>` subtree it anchors at is a new empty directory). -/
def freshRoot : Node := .dir 0 .nil

/-! ## `DiskFileSystem` listing

The directory tree under the backend's `rootPath` is modelled with the same
`Node` type; the children of a directory are listed in the (arbitrary but
fixed) order `os.listdir` yields them. -/

/-- `DiskFileSystem._rooted(path)`: `joinPaths(rootPath, path)` followed by the
`startswith(rootPath)` escape check, expressed on the path relative to the
root: `os.path.normpath` component resolution, rejecting a result that climbs
above the root (a leading `".."` component) with the "Unsafe path detected"
`Exception`. -/
def diskResolve (path : String) : Except Err (List String) :=
  let parts := normParts (splitSlash (stripSeps path))
  match parts with
  | ".." :: _ => .error .unsafePathDetected
  | _ => .ok parts

/-- `os.path.isdir(self._rooted(path))`: false when the path is missing or not
a directory. -/
def diskIsdir (root : Node) (path : String) : Bool :=
  match diskResolve path with
  | .error _ => false
  | .ok vec =>
    match walkTo root vec with
    | .ok n => n.isDir
    | .error _ => false

mutual

/-- `DiskFileSystem._listdir(result, path, recursive, maxEntries)`: like the
in-memory variant, but the recursive call passes **no** `maxEntries`
(`self._listdir(result, filePath, recursive=recursive)` leaves it at its
default `None`), so entries below a subdirectory are never truncated.
`self.isdir(filePath)` re-resolves the built path; for the entry names
`os.listdir` yields (no separator, never `"."` or `".."`) that resolves to
the child node itself, so the check is the child's kind. -/
def diskListdirAux (recursive : Bool) :
    Option Nat → List String → String → EntryList → List String
  | _, result, _, .nil => result
  | maxEntries, result, path, .cons name meta rest =>
    if atMaxEntries maxEntries result.length then result
    else
      let filePath := joinPaths0 path name
      let result2 := diskListdirChild recursive (result ++ [filePath]) filePath meta
      diskListdirAux recursive maxEntries result2 path rest

/-- `if recursive and self.isdir(filePath): self._listdir(result, filePath,
recursive=recursive)` — note the recursive call leaves `maxEntries` at its
default `None`. -/
def diskListdirChild (recursive : Bool) :
    List String → String → Node → List String
  | result, _, .file .. => result
  | result, filePath, .dir _ es =>
    if recursive then diskListdirAux recursive none result filePath es else result
end

/-- Strict lexicographic comparison by Unicode code point, as Python compares
strings. -/
def lexLt : List Char → List Char → Bool
  | [], [] => false
  | [], _ :: _ => true
  | _ :: _, [] => false
  | a :: as, b :: bs =>
    if a.val < b.val then true
    else if b.val < a.val then false
    else lexLt as bs

/-- `x <= y` on strings by code point. -/
def strLe (x y : String) : Bool := !lexLt y.toList x.toList

/-- Ascending insertion into a sorted list (for Python's `sorted`). -/
def insertSorted (x : String) : List String → List String
  | [] => [x]
  | y :: ys => if strLe x y then x :: y :: ys else y :: insertSorted x ys

/-- Python's `sorted` on strings as an insertion sort. -/
def sortStrings (l : List String) : List String := l.foldr insertSorted []

/-- `DiskFileSystem.listdir`: gather with `_listdir`, then `sorted(result)`.
`os.listdir` raises an `OSError` for a missing path or a non-directory. -/
def diskListdir (root : Node) (path : String) (recursive : Bool)
    (maxEntries : Option Nat) : Except Err (List String) :=
  match diskResolve path with
  | .error e => .error e
  | .ok vec =>
    match walkTo root vec with
    | .error e => .error e
    | .ok (.file ..) => .error .osNotADirectory
    | .ok (.dir _ es) =>
        .ok (sortStrings (diskListdirAux recursive maxEntries [] path es))

/-! ## Stream checks (`FileSystem` static helpers) -/

/-- `FileSystem._checkByteStreamForGet`: `TypeError` unless
`hasattr(byteStream, "seekable") and byteStream.seekable()`, then `ValueError`
unless `byteStream.tell() == 0`. -/
def checkByteStreamForGet (s : ByteStream) : Option Err :=
  if !s.seekable then some .typeErrorNotSeekable
  else if s.pos ≠ 0 then some .valueErrorPosition
  else none

/-- `FileSystem._checkByteStreamForSet`: same checks as the `get` variant. -/
def checkByteStreamForSet (s : ByteStream) : Option Err :=
  if !s.seekable then some .typeErrorNotSeekable
  else if s.pos ≠ 0 then some .valueErrorPosition
  else none

/-! ## `util.retry` -/

/-- What the wrapped call produces on attempt `ix`: a value or an exception.
The error type `E` is abstract; `caught e` models
`isinstance(e, caughtExceptions)` and `isExceeded e` models
`isinstance(e, ExceededRetriesException)`. -/
def Outcome (E α : Type) := Nat → Except E α

/-- The result of `retryWrapper`: the function's value, `None` when the
`for` loop runs zero iterations (`retries <= 0`), an exception re-raised
as-is, or the fresh `ExceededRetriesException` wrapping the last cause. -/
inductive RetryResult (E α : Type) where
  | value (v : α)
  | retNone
  | raised (e : E)
  | exceededRetries (cause : E)
  deriving DecidableEq

/-- One pass of the `for ix in range(retries)` loop of `util.retry`, with
`remaining = retries - ix` iterations left and `calls` the number of
`onException()` invocations so far.  An exception not in `caughtExceptions`
or an `ExceededRetriesException` is (re)raised; on the last iteration the
wrapping `ExceededRetriesException(...) from e` is raised; otherwise
`onException()` runs and the loop retries. -/
def retryAux {E α : Type} (f : Outcome E α) (caught isExceeded : E → Bool) :
    Nat → Nat → Nat → RetryResult E α × Nat
  | _, 0, calls => (.retNone, calls)
  | ix, remaining + 1, calls =>
    match f ix with
    | .ok v => (.value v, calls)
    | .error e =>
      if !caught e then (.raised e, calls)
      else if isExceeded e then (.raised e, calls)
      else if remaining = 0 then (.exceededRetries e, calls)
      else retryAux f caught isExceeded (ix + 1) remaining (calls + 1)

/-- `util.retry(func, retries=retries, caughtExceptions=..., onException=...)`
applied to one call of the wrapped function: the result together with how
many times `onException()` ran. -/
def retryRun {E α : Type} (f : Outcome E α) (caught isExceeded : E → Bool) (retries : Nat) :
    RetryResult E α × Nat :=
  retryAux f caught isExceeded 0 retries 0

/-! ## `util.chunkedByteStreamPipe` -/

/-- `FileSystem.CHUNK_SIZE = 10 * 1024**2`. -/
def CHUNK_SIZE : Nat := 10 * 1024 ^ 2

/-- The loop of `chunkedByteStreamPipe`.  `data` is what remains of the input
stream; a call `inStream.read(k)` returns `min k (oracle i)` bytes (capped by
what remains), where the oracle models short reads by the stream on the `i`-th
read call; `oracle i = 0` models an empty read.  Returns the remaining input,
the bytes written to the output stream, and the trace of requested read sizes.
The fuel only bounds the recursion; `data.length + 1` is always enough because
every non-final iteration consumes at least one byte. -/
def pipeAux (oracle : Nat → Nat) (amount : Int) :
    Nat → Int → List Nat → Nat → List Nat × List Nat × List Nat
  | 0, _, data, _ => (data, [], [])
  | fuel + 1, readAmount, data, i =>
    if readAmount ≤ 0 then (data, [], [])
    else
      let req := readAmount.toNat
      let chunk := data.take (min req (oracle i))
      if chunk = [] then (data, [], [req])
      else
        let readAmount1 := if amount > 0 then readAmount - chunk.length else readAmount
        let res := pipeAux oracle amount fuel readAmount1 (data.drop chunk.length) (i + 1)
        (res.1, chunk ++ res.2.1, req :: res.2.2)

/-- `chunkedByteStreamPipe(inStream, outStream, amount, chunkSize)`:
`readAmount` starts at `chunkSize` when `amount < 0` and at `amount`
otherwise; the loop reads `readAmount` bytes at a time, stops on an empty
read or (when `amount > 0`) once `amount` bytes have been transferred, and
writes every chunk read.  `data` is the readable contents of the input
stream; the oracle is as in `pipeAux`. -/
def chunkedByteStreamPipe (oracle : Nat → Nat) (data : List Nat) (amount : Int)
    (chunkSize : Nat) : List Nat × List Nat × List Nat :=
  let readAmount : Int := if amount < 0 then chunkSize else amount
  pipeAux oracle amount (data.length + 1) readAmount data 0

/-! ## `CloningFileSystem` over two in-memory backends -/

/-- The state of a `CloningFileSystem(frontFileSystem, backFileSystem)`. -/
structure CloningState where
  front : Node
  back : Node

/-- `CloningFileSystem.set(path, content)`:
bytes are written to back then to front; a stream that answers `tell()` is
written to back, seeked back to the recorded position, and written to front;
a stream that fails `tell()` (modelled by `seekable = false`) is spooled once
through `chunkedByteStreamPipe` into a `SpooledTemporaryFile` that is rewound
and used for both writes.  An exception from either write propagates (a back
failure leaves front untouched; a front failure happens after back was
written).  A `content` that is neither bytes nor a stream fails `tell()` and
then raises `AttributeError` inside the pipe's `content.read`. -/
def cloningSet (now : Int) (st : CloningState) (path : String) (content : Content) :
    CloningState × Option Err :=
  match content with
  | .bytes _ =>
    match setOpFull now st.back path content with
    | (b, some e, _) => ({ st with back := b }, some e)
    | (b, none, _) =>
      ({ front := (setOpFull now st.front path content).1, back := b },
        (setOpFull now st.front path content).2.1)
  | .stream s =>
    if s.seekable then
      let position := s.pos
      match setOpFull now st.back path (.stream s) with
      | (b, some e, _) => ({ st with back := b }, some e)
      | (b, none, c1) =>
        let s1 := match c1 with
          | .stream t => t.seek position
          | _ => s.seek position
        ({ front := (setOpFull now st.front path (.stream s1)).1, back := b },
          (setOpFull now st.front path (.stream s1)).2.1)
    else
      let spooled :=
        (chunkedByteStreamPipe (fun _ => s.data.length + 1) (s.data.drop s.pos)
          (-1) CHUNK_SIZE).2.1
      match setOpFull now st.back path (.stream ⟨spooled, 0, true⟩) with
      | (b, some e, _) => ({ st with back := b }, some e)
      | (b, none, _) =>
        ({ front := (setOpFull now st.front path (.stream ⟨spooled, 0, true⟩)).1,
            back := b },
          (setOpFull now st.front path (.stream ⟨spooled, 0, true⟩)).2.1)
  | .other => (st, some .attributeError)

/-- `CloningFileSystem.get(path)`: front's copy when `front.exists(path)`;
otherwise fetch from back, then `front.set(path, data)` inside
`try ... except OSError` — an `OSError` from the front write is only logged,
but any other exception (e.g. the `TypeError` from assigning into a file
parent) propagates. -/
def cloningGet (now : Int) (st : CloningState) (path : String) :
    CloningState × Except Err (List Nat) :=
  if existsOp st.front path then (st, getOp st.front path)
  else
    match getOp st.back path with
    | .error e => (st, .error e)
    | .ok data =>
      match setOpFull now st.front path (.bytes data) with
      | (f, none, _) => ({ st with front := f }, .ok data)
      | (f, some e, _) =>
        if e.isOSError then ({ st with front := f }, .ok data)
        else ({ st with front := f }, .error e)

/-! ## Sequences of public operations on an `InMemFileSystem`

The remaining public operations (`exists`, `isdir`, `isfile`, `get`,
`getInto`, `getmtime`, `getsize`, `listdir`, `listFiles`, `listSubdirs`,
`stat`, `iterateFiles`) call `_walkTo` without `createAsWeGo` and never
mutate the tree, so only the mutating operations appear here. -/

/-- A mutating public operation: `set`, `rm`, `setmtime`, or `tearDown`
(which resets `self._filesystem.contents = {}`). -/
inductive FSOp where
  | setFile (now : Int) (path : String) (content : Content)
  | remove (path : String)
  | setModtime (path : String) (t : Int)
  | tearDown

/-- The tree after running one operation (a raised exception leaves the tree
as the failing operation left it). -/
def applyOp (s : Node) : FSOp → Node
  | .setFile now path content => (setOp now s path content).1
  | .remove path => (rmOp s path).1
  | .setModtime path t => (setmtimeOp s path t).1
  | .tearDown =>
    match s with
    | .dir mt _ => .dir mt .nil
    | .file mt sz d => .file mt sz d

/-- The tree after a sequence of operations. -/
def applyOps (s : Node) (ops : List FSOp) : Node := ops.foldl applyOp s

/-! ## Lemmas about dict entries and tree walks -/

theorem lookup_insertEntry_self : ∀ (es : EntryList) (k : String) (v : Node),
    lookupEntry (insertEntry es k v) k = some v
  | .nil, k, v => by simp [insertEntry, lookupEntry]
  | .cons k' v' rest, k, v => by
    by_cases h : k' = k
    · subst h
      simp [insertEntry, lookupEntry]
    · simp [insertEntry, lookupEntry, h, lookup_insertEntry_self rest k v]

theorem insertEntry_self : ∀ (es : EntryList) (k : String) (v : Node),
    lookupEntry es k = some v → insertEntry es k v = es
  | .nil, k, v, h => by simp [lookupEntry] at h
  | .cons k' v' rest, k, v, h => by
    by_cases hk : k' = k
    · subst hk
      simp [lookupEntry] at h
      simp [insertEntry, h]
    · simp [lookupEntry, hk] at h
      simp [insertEntry, hk, insertEntry_self rest k v h]

theorem walkTo_append (a b : List String) (n : Node) :
    walkTo n (a ++ b) =
      match walkTo n a with
      | .ok m => walkTo m b
      | .error e => .error e := by
  induction a generalizing n with
  | nil => simp [walkTo]
  | cons seg rest ih =>
    cases n with
    | file mt sz d => simp [walkTo]
    | dir mt es =>
      simp only [List.cons_append, walkTo]
      cases lookupEntry es seg with
      | none => simp
      | some child => simp [ih]

/-- A successful `updateAt` applied `f` to some node obtaining `m'`, and in
the updated tree the walked path leads to `m'`. -/
theorem updateAt_ok (cr : Bool) (now : Int) (f : Node → Except Err Node)
    (vec : List String) :
    ∀ n r, updateAt cr now f n vec = .ok r →
      ∃ m m', f m = .ok m' ∧ walkTo r vec = .ok m' := by
  induction vec with
  | nil =>
    intro n r h
    exact ⟨n, r, h, rfl⟩
  | cons seg rest ih =>
    intro n r h
    cases n with
    | file mt sz d => simp [updateAt] at h
    | dir mt es =>
      simp only [updateAt] at h
      cases hl : lookupEntry es seg with
      | some child =>
        simp only [hl] at h
        cases hu : updateAt cr now f child rest with
        | error e => rw [hu] at h; simp [Except.map] at h
        | ok c1 =>
          rw [hu] at h
          simp [Except.map] at h
          obtain ⟨m, m', hf, hw⟩ := ih child c1 hu
          refine ⟨m, m', hf, ?_⟩
          rw [← h]
          simp [walkTo, lookup_insertEntry_self, hw]
      | none =>
        simp only [hl] at h
        cases cr with
        | false => simp at h
        | true =>
          simp only [if_true] at h
          cases hu : updateAt true now f (newDir now) rest with
          | error e => rw [hu] at h; simp [Except.map] at h
          | ok c1 =>
            rw [hu] at h
            simp [Except.map] at h
            obtain ⟨m, m', hf, hw⟩ := ih (newDir now) c1 hu
            refine ⟨m, m', hf, ?_⟩
            rw [← h]
            simp [walkTo, lookup_insertEntry_self, hw]

/-- Walking with the identity update along an existing path rebuilds the same
tree. -/
theorem updateAt_pure_eq (cr : Bool) (now : Int) (vec : List String) :
    ∀ n m, walkTo n vec = .ok m →
      updateAt cr now (fun x => .ok x) n vec = .ok n := by
  induction vec with
  | nil => intro n m _; rfl
  | cons seg rest ih =>
    intro n m h
    cases n with
    | file mt sz d => simp [walkTo] at h
    | dir mt es =>
      simp only [walkTo] at h
      cases hl : lookupEntry es seg with
      | none => simp only [hl] at h; simp at h
      | some child =>
        simp only [hl] at h
        simp only [updateAt, hl]
        rw [ih child m h]
        simp [Except.map, insertEntry_self es seg child hl]

/-- Updating at the end of an existing path succeeds and the updated tree
walks to the updated node. -/
theorem updateAt_ok_of_walkTo (cr : Bool) (now : Int) (f : Node → Except Err Node)
    (vec : List String) :
    ∀ n m m', walkTo n vec = .ok m → f m = .ok m' →
      ∃ r, updateAt cr now f n vec = .ok r ∧ walkTo r vec = .ok m' := by
  induction vec with
  | nil =>
    intro n m m' h hf
    cases h
    exact ⟨m', by simpa [updateAt] using hf, rfl⟩
  | cons seg rest ih =>
    intro n m m' h hf
    cases n with
    | file mt sz d => simp [walkTo] at h
    | dir mt es =>
      simp only [walkTo] at h
      cases hl : lookupEntry es seg with
      | none => simp only [hl] at h; simp at h
      | some child =>
        simp only [hl] at h
        obtain ⟨r, hu, hw⟩ := ih child m m' h hf
        refine ⟨.dir mt (insertEntry es seg r), ?_, ?_⟩
        · simp [updateAt, hl, hu, Except.map]
        · simp [walkTo, lookup_insertEntry_self, hw]

/-- Successful updates preserve a directory at the root, provided `f` maps
directories to directories. -/
theorem updateAt_isDir (cr : Bool) (now : Int) (f : Node → Except Err Node)
    (vec : List String) (n r : Node) (h : updateAt cr now f n vec = .ok r)
    (hn : n.isDir = true)
    (hf : ∀ x y, f x = .ok y → x.isDir = true → y.isDir = true) :
    r.isDir = true := by
  cases vec with
  | nil => exact hf n r h hn
  | cons seg rest =>
    cases n with
    | file mt sz d => simp [Node.isDir] at hn
    | dir mt es =>
      simp only [updateAt] at h
      cases hl : lookupEntry es seg with
      | some child =>
        simp only [hl] at h
        cases hu : updateAt cr now f child rest with
        | error e => rw [hu] at h; simp [Except.map] at h
        | ok c1 =>
          rw [hu] at h
          simp [Except.map] at h
          rw [← h]
          simp [Node.isDir]
      | none =>
        simp only [hl] at h
        cases cr with
        | false => simp at h
        | true =>
          simp only [if_true] at h
          cases hu : updateAt true now f (newDir now) rest with
          | error e => rw [hu] at h; simp [Except.map] at h
          | ok c1 =>
            rw [hu] at h
            simp [Except.map] at h
            rw [← h]
            simp [Node.isDir]

/-- After a successful file assignment at `parentVec ++ [filename]`, the
walk reaches the freshly created file node. -/
theorem assign_walkTo (now : Int) (parentVec : List String) (filename : String)
    (data : List Nat) (root r2 : Node)
    (h : updateAt true now
      (fun n => match n with
        | .dir mt es => .ok (.dir mt (insertEntry es filename (newFile now data)))
        | .file .. => .error .typeErrorItemAssign) root parentVec = .ok r2) :
    walkTo r2 (parentVec ++ [filename]) = .ok (newFile now data) := by
  obtain ⟨m, m', hf, hw⟩ := updateAt_ok _ _ _ _ _ _ h
  cases m with
  | file mt sz d => simp at hf
  | dir mt es =>
    simp at hf
    rw [walkTo_append, hw, ← hf]
    simp [walkTo, lookup_insertEntry_self]

/-- Characterization of a successful `InMemFileSystem.set`: the path has a
nonempty component vector, the returned content is the post-read content, and
the new tree holds a fresh file node with the read payload at the path. -/
theorem setOpFull_none_inv (now : Int) (root : Node) (path : String) (c : Content)
    (h : (setOpFull now root path c).2.1 = none) :
    ∃ vec r2, splitPathE path = .ok vec ∧ vec ≠ [] ∧
      setOpFull now root path c = (r2, none, (contentRead c).2) ∧
      walkTo r2 vec = .ok (newFile now (contentRead c).1) := by
  by_cases hpath : path = ""
  · simp [setOpFull, hpath] at h
  · cases hsp : splitPathE path with
    | error e => simp [setOpFull, hpath, hsp] at h
    | ok vec =>
      by_cases hv : vec = []
      · simp [setOpFull, hpath, hsp, hv] at h
      · cases hup : updateAt true now (fun x => .ok x) root vec.dropLast with
        | error e => simp [setOpFull, hpath, hsp, hv, hup] at h
        | ok r1 =>
          cases c with
          | other => simp [setOpFull, hpath, hsp, hv, hup] at h
          | bytes d =>
            simp only [setOpFull, hpath, hsp, hv, hup, if_false, dif_neg,
              not_false_iff] at h ⊢
            split at h
            next r2 has =>
              refine ⟨vec, r2, rfl, hv, ?_, ?_⟩
              · simp [has]
              · have := assign_walkTo now vec.dropLast (vec.getLast hv)
                  (contentRead (Content.bytes d)).1 root r2 has
                rwa [List.dropLast_append_getLast hv] at this
            next e has => simp at h
          | stream s =>
            simp only [setOpFull, hpath, hsp, hv, hup, if_false, dif_neg,
              not_false_iff] at h ⊢
            split at h
            next r2 has =>
              refine ⟨vec, r2, rfl, hv, ?_, ?_⟩
              · simp [has]
              · have := assign_walkTo now vec.dropLast (vec.getLast hv)
                  (contentRead (Content.stream s)).1 root r2 has
                rwa [List.dropLast_append_getLast hv] at this
            next e has => simp at h

/-- Shared success contract of `InMemFileSystem.set`: immediately afterwards
`get` returns the payload that was read from the content, `isfile` is true,
`isdir` is false, and `getsize` equals the payload length. -/
theorem setOpFull_success (now : Int) (root : Node) (path : String) (c : Content)
    (h : (setOpFull now root path c).2.1 = none) :
    getOp (setOpFull now root path c).1 path = .ok (contentRead c).1 ∧
    isfileOp (setOpFull now root path c).1 path = true ∧
    isdirOp (setOpFull now root path c).1 path = false ∧
    getsizeOp (setOpFull now root path c).1 path = .ok (contentRead c).1.length ∧
    (setOpFull now root path c).2.2 = (contentRead c).2 := by
  obtain ⟨vec, r2, hsp, hv, heq, hw⟩ := setOpFull_none_inv now root path c h
  rw [heq]
  refine ⟨?_, ?_, ?_, ?_, rfl⟩
  · simp [getOp, hsp, hw, newFile]
  · simp [isfileOp, hsp, hw, newFile, Node.isFile]
  · simp [isdirOp, hsp, hw, newFile, Node.isDir]
  · simp [getsizeOp, hsp, hw, newFile]

/-- C1.  For every path `p` (whose success entails at least one nonempty
component) and byte payload `v`, immediately after a successful
`InMemFileSystem.set(p, v)` the new tree satisfies: `get(p)` returns `v`,
`isfile(p)` is true, `isdir(p)` is false, and `getsize(p)` equals `len(v)`. -/
theorem C1_inmem_set_then_get (now : Int) (root : Node) (p : String) (v : List Nat)
    (s2 : Node) (h : setOp now root p (.bytes v) = (s2, none)) :
    getOp s2 p = .ok v ∧ isfileOp s2 p = true ∧ isdirOp s2 p = false ∧
      getsizeOp s2 p = .ok v.length := by
  have h1 : (setOpFull now root p (.bytes v)).2.1 = none := by
    have := congrArg Prod.snd h
    simpa [setOp] using this
  have h2 : (setOpFull now root p (.bytes v)).1 = s2 := by
    have := congrArg Prod.fst h
    simpa [setOp] using this
  obtain ⟨hg, hf, hd, hs, _⟩ := setOpFull_success now root p (.bytes v) h1
  rw [h2] at hg hf hd hs
  exact ⟨by simpa [contentRead] using hg, hf, hd,
    by simpa [contentRead] using hs⟩

/-- Witness for C1 at a concrete input: `set("dir1/test.txt", [97, 98, 99])`
on a fresh tree. -/
theorem C1_inmem_set_then_get_witness :
    getOp (setOp 7 freshRoot "dir1/test.txt" (.bytes [97, 98, 99])).1
        "dir1/test.txt" = .ok [97, 98, 99] ∧
      isfileOp (setOp 7 freshRoot "dir1/test.txt" (.bytes [97, 98, 99])).1
        "dir1/test.txt" = true ∧
      isdirOp (setOp 7 freshRoot "dir1/test.txt" (.bytes [97, 98, 99])).1
        "dir1/test.txt" = false ∧
      getsizeOp (setOp 7 freshRoot "dir1/test.txt" (.bytes [97, 98, 99])).1
        "dir1/test.txt" = .ok 3 :=
  C1_inmem_set_then_get 7 freshRoot "dir1/test.txt" [97, 98, 99]
    (setOp 7 freshRoot "dir1/test.txt" (.bytes [97, 98, 99])).1 (by rfl)

/-! ## C8: the root always exists and is a directory -/

/-- The tree `set` leaves behind keeps a directory at the root. -/
theorem setOpFull_fst_isDir (now : Int) (s : Node) (path : String) (c : Content)
    (h : s.isDir = true) : ((setOpFull now s path c).1).isDir = true := by
  have hpure : ∀ x y : Node, (fun x => (.ok x : Except Err Node)) x = .ok y →
      x.isDir = true → y.isDir = true := by
    intro x y hxy hx
    cases hxy
    exact hx
  by_cases hpath : path = ""
  · simpa [setOpFull, hpath] using h
  · cases hsp : splitPathE path with
    | error e => simpa [setOpFull, hpath, hsp] using h
    | ok vec =>
      by_cases hv : vec = []
      · simpa [setOpFull, hpath, hsp, hv] using h
      · cases hup : updateAt true now (fun x => .ok x) s vec.dropLast with
        | error e => simpa [setOpFull, hpath, hsp, hv, hup] using h
        | ok r1 =>
          have hr1 : r1.isDir = true := updateAt_isDir _ _ _ _ _ _ hup h hpure
          cases c with
          | other => simpa [setOpFull, hpath, hsp, hv, hup] using hr1
          | bytes d =>
            simp only [setOpFull, hpath, hsp, hv, hup, if_false, dif_neg,
              not_false_iff]
            split
            next r2 has =>
              exact updateAt_isDir _ _ _ _ _ _ has h (by
                intro x y hxy hx
                cases x with
                | dir mt es => cases hxy; rfl
                | file mt sz dd => simp at hxy)
            next e has => exact hr1
          | stream st =>
            simp only [setOpFull, hpath, hsp, hv, hup, if_false, dif_neg,
              not_false_iff]
            split
            next r2 has =>
              exact updateAt_isDir _ _ _ _ _ _ has h (by
                intro x y hxy hx
                cases x with
                | dir mt es => cases hxy; rfl
                | file mt sz dd => simp at hxy)
            next e has => exact hr1

/-- The tree `rm` leaves behind keeps a directory at the root. -/
theorem rmOp_fst_isDir (s : Node) (path : String) (h : s.isDir = true) :
    ((rmOp s path).1).isDir = true := by
  by_cases hpath : path = ""
  · simpa [rmOp, hpath] using h
  · cases hsp : splitPathE path with
    | error e => simpa [rmOp, hpath, hsp] using h
    | ok vec =>
      by_cases hv : vec = []
      · simpa [rmOp, hpath, hsp, hv] using h
      · simp only [rmOp, hpath, hsp, hv, if_false, dif_neg, not_false_iff]
        split
        next r has =>
          exact updateAt_isDir _ _ _ _ _ _ has h (by
            intro x y hxy hx
            cases x with
            | dir mt es =>
              simp only at hxy
              cases hl : lookupEntry es (vec.getLast hv) with
              | none => simp [hl] at hxy
              | some child =>
                simp only [hl] at hxy
                cases child with
                | file mt2 sz2 d2 => cases hxy; rfl
                | dir mt2 es2 =>
                  by_cases hc : es2.isEmpty
                  · simp [hc] at hxy
                    rw [← hxy]
                    rfl
                  · simp [hc] at hxy
            | file mt sz d => simp at hxy)
        next e has => exact h

/-- The tree `setmtime` leaves behind keeps a directory at the root. -/
theorem setmtimeOp_fst_isDir (s : Node) (path : String) (t : Int)
    (h : s.isDir = true) : ((setmtimeOp s path t).1).isDir = true := by
  cases hsp : splitPathE path with
  | error e => simpa [setmtimeOp, hsp] using h
  | ok vec =>
    simp only [setmtimeOp, hsp]
    split
    next r has =>
      exact updateAt_isDir _ _ _ _ _ _ has h (by
        intro x y hxy hx
        cases x with
        | dir mt es => cases hxy; rfl
        | file mt sz d => simp [Node.isDir] at hx)
    next e has => exact h

/-- Every mutating public operation keeps a directory at the root. -/
theorem applyOp_isDir (s : Node) (op : FSOp) (h : s.isDir = true) :
    (applyOp s op).isDir = true := by
  cases op with
  | setFile now path content =>
    simpa [applyOp, setOp] using setOpFull_fst_isDir now s path content h
  | remove path => simpa [applyOp] using rmOp_fst_isDir s path h
  | setModtime path t => simpa [applyOp] using setmtimeOp_fst_isDir s path t h
  | tearDown =>
    cases s with
    | dir mt es => rfl
    | file mt sz d => simp [Node.isDir] at h

/-- The root of any state reachable from a fresh backend is a directory. -/
theorem applyOps_isDir (ops : List FSOp) : (applyOps freshRoot ops).isDir = true := by
  suffices hgen : ∀ s : Node, s.isDir = true → (ops.foldl applyOp s).isDir = true from
    hgen freshRoot rfl
  induction ops with
  | nil => intro s hs; exact hs
  | cons op rest ih =>
    intro s hs
    exact ih (applyOp s op) (applyOp_isDir s op hs)

/-- C8.  In every state reachable from a fresh in-memory backend by a sequence
of public operations, `exists("")` and `isdir("")` are true, and `set("", v)`
and `rm("")` raise `OSError` and leave the tree unchanged; on a fresh instance
`listdir()` returns the empty list. -/
theorem C8_root_invariant (ops : List FSOp) (now : Int) (content : Content) :
    existsOp (applyOps freshRoot ops) "" = true ∧
    isdirOp (applyOps freshRoot ops) "" = true ∧
    setOp now (applyOps freshRoot ops) "" content =
      (applyOps freshRoot ops, some .osCannotSet) ∧
    rmOp (applyOps freshRoot ops) "" =
      (applyOps freshRoot ops, some .osCannotRemove) ∧
    listdirOp freshRoot "" false none = .ok [] := by
  have hsplit : splitPathE "" = .ok [] := rfl
  refine ⟨?_, ?_, ?_, ?_, ?_⟩
  · simp [existsOp, hsplit, walkTo]
  · simp [isdirOp, hsplit, walkTo, applyOps_isDir ops]
  · simp [setOp, setOpFull]
  · simp [rmOp]
  · simp [listdirOp, hsplit, walkTo, freshRoot, listdirAux]

/-! ## C3: `maxEntries` on recursive disk listings -/

/-- A disk tree: the backend root contains a directory `a` holding files
`b` and `c`. -/
def c3tree : Node :=
  .dir 0 (.cons "a"
    (.dir 0 (.cons "b" (newFile 0 [1]) (.cons "c" (newFile 0 [2]) .nil))) .nil)

/-- C3.  `DiskFileSystem.listdir("", recursive=True, maxEntries=1)` on a tree
whose untruncated recursive listing has 3 entries returns all 3 entries —
`maxEntries` is dropped by the recursive call in `DiskFileSystem._listdir` —
although the interface documentation promises "the maximum number of entries
to return" and the in-memory backend (same listing, same arguments) honours
the bound. -/
theorem C3_disk_recursive_maxEntries_bug :
    diskListdir c3tree "" true (some 1) = .ok ["a", "a/b", "a/c"] ∧
    listdirOp c3tree "" true (some 1) = .ok ["a"] := by
  constructor
  · decide
  · decide

/-! ## C4: `rm` of the root alias `/` on the in-memory backend -/

/-- An in-memory tree whose root is a non-empty directory. -/
def c4root : Node := .dir 0 (.cons "a" (newFile 0 [1]) .nil)

/-- C4.  `"/"` names the (non-empty) root directory, yet
`InMemFileSystem.rm("/")` raises `IndexError` — `splitPath("/")` is the empty
vector and `pathVec[-1]` fails — instead of the `OSError` promised by
`FileSystem.rm`'s documentation ("Raises OSError if ... it is a non-empty
directory"); the disk backend's empty-path guard catches `"/"`, the in-memory
guard `if not path` does not. -/
theorem C4_inmem_rm_slash_raises_IndexError :
    isdirOp c4root "/" = true ∧
    listdirOp c4root "/" false none = .ok ["a"] ∧
    rmOp c4root "/" = (c4root, some .indexError) ∧
    Err.isOSError .indexError = false := by
  exact ⟨rfl, by decide, rfl, rfl⟩

/-! ## C9 and C2: counterexamples at the root and at unchecked streams -/

/-- C9 counterexample.  The empty path names a directory (the root), but
`set("", v)` raises `OSError("Cannot set ...")` instead of replacing it. -/
theorem C9_counterexample :
    isdirOp freshRoot "" = true ∧
    (setOp 0 freshRoot "" (.bytes [1])).2 = some .osCannotSet :=
  ⟨rfl, rfl⟩

/-- A tree holding the file `f` with contents `[7]`. -/
def c2root : Node := (setOp 0 freshRoot "f" (.bytes [7])).1

/-- C2 counterexample.  On the in-memory backend, `getInto` into a
non-seekable target raises no `TypeError` (it writes and succeeds), and `set`
from a seekable stream at position 1 raises no `ValueError` (it reads from
the current position) — the stream checks exist only in the network backends
and the cached wrapper. -/
theorem C2_counterexample :
    getIntoOp c2root "f" ⟨[], 0, false⟩ = .ok ⟨[7], 1, false⟩ ∧
    (setOp 0 freshRoot "g" (.stream ⟨[5, 6], 1, true⟩)).2 = none :=
  ⟨rfl, rfl⟩

/-! ## C5: the retry wrapper -/

/-- When every remaining attempt fails with a caught, non-`ExceededRetries`
error, the loop calls the callback on all but the last attempt and raises the
wrapping `ExceededRetriesException` around the last cause. -/
theorem retryAux_all_fail {E α : Type} (f : Outcome E α) (caught isExc : E → Bool) :
    ∀ (remaining ix calls : Nat), 0 < remaining →
      (∀ j, j < remaining →
        ∃ e, f (ix + j) = .error e ∧ caught e = true ∧ isExc e = false) →
      ∃ e, f (ix + remaining - 1) = .error e ∧
        retryAux f caught isExc ix remaining calls =
          (.exceededRetries e, calls + remaining - 1) := by
  intro remaining
  induction remaining with
  | zero => intro ix calls h; omega
  | succ r ih =>
    intro ix calls _ helig
    obtain ⟨e, he, hc, hx⟩ := helig 0 (by omega)
    rw [Nat.add_zero] at he
    cases r with
    | zero =>
      refine ⟨e, by simpa using he, ?_⟩
      simp [retryAux, he, hc, hx]
    | succ r2 =>
      obtain ⟨e2, he2, hr⟩ := ih (ix + 1) (calls + 1) (by omega)
        (fun j hj => by
          obtain ⟨e3, h3, h4, h5⟩ := helig (j + 1) (by omega)
          exact ⟨e3, by rw [show ix + 1 + j = ix + (j + 1) from by omega]; exact h3,
            h4, h5⟩)
      refine ⟨e2, ?_, ?_⟩
      · rwa [show ix + 1 + (r2 + 1) - 1 = ix + (r2 + 1 + 1) - 1 by omega] at he2
      · rw [show calls + 1 + (r2 + 1) - 1 = calls + (r2 + 1 + 1) - 1 by omega] at hr
        simpa [retryAux, he, hc, hx] using hr

/-- When the first `k` attempts fail with caught, non-`ExceededRetries`
errors and attempt `k` (still within the budget) succeeds, the wrapper
returns the value after exactly `k` callback invocations. -/
theorem retryAux_succeeds {E α : Type} (f : Outcome E α) (caught isExc : E → Bool)
    (v : α) :
    ∀ (k remaining ix calls : Nat), k < remaining →
      (∀ j, j < k → ∃ e, f (ix + j) = .error e ∧ caught e = true ∧ isExc e = false) →
      f (ix + k) = .ok v →
      retryAux f caught isExc ix remaining calls = (.value v, calls + k) := by
  intro k
  induction k with
  | zero =>
    intro remaining ix calls hlt _ hok
    rw [Nat.add_zero] at hok
    cases remaining with
    | zero => omega
    | succ r => simp [retryAux, hok]
  | succ k2 ih =>
    intro remaining ix calls hlt helig hok
    obtain ⟨e, he, hc, hx⟩ := helig 0 (by omega)
    rw [Nat.add_zero] at he
    cases remaining with
    | zero => omega
    | succ r =>
      have hr0 : r ≠ 0 := by omega
      have := ih r (ix + 1) (calls + 1) (by omega)
        (fun j hj => by
          obtain ⟨e3, h3, h4, h5⟩ := helig (j + 1) (by omega)
          exact ⟨e3, by rw [show ix + 1 + j = ix + (j + 1) from by omega]; exact h3,
            h4, h5⟩)
        (by rw [show ix + 1 + k2 = ix + (k2 + 1) from by omega]; exact hok)
      rw [show calls + 1 + k2 = calls + (k2 + 1) by omega] at this
      simpa [retryAux, he, hc, hx, hr0] using this

/-- C5.  For a positive retry budget `n`: if every attempt fails with a
retry-eligible error, the wrapper raises the distinct `exceededRetries`
result wrapping the last cause after `n - 1` callback calls; if the first `k`
attempts fail eligibly and attempt `k` succeeds, it returns the value after
`k` callback calls (each eligible error triggered the callback and a retry);
a first-attempt error that is not in `caughtExceptions` is re-raised at once
with no callback; and a first-attempt `ExceededRetriesException` is re-raised
at once, never retried. -/
theorem C5_retry_spec {E α : Type} (caught isExc : E → Bool) (n : Nat)
    (hn : 0 < n) :
    (∀ f : Outcome E α,
      (∀ i, i < n → ∃ e, f i = .error e ∧ caught e = true ∧ isExc e = false) →
      ∃ e, f (n - 1) = .error e ∧
        retryRun f caught isExc n = (.exceededRetries e, n - 1)) ∧
    (∀ (f : Outcome E α) (k : Nat) (v : α), k < n →
      (∀ i, i < k → ∃ e, f i = .error e ∧ caught e = true ∧ isExc e = false) →
      f k = .ok v → retryRun f caught isExc n = (.value v, k)) ∧
    (∀ (f : Outcome E α) (e : E), f 0 = .error e → caught e = false →
      retryRun f caught isExc n = (.raised e, 0)) ∧
    (∀ (f : Outcome E α) (e : E), f 0 = .error e → caught e = true →
      isExc e = true → retryRun f caught isExc n = (.raised e, 0)) := by
  obtain ⟨m, rfl⟩ : ∃ m, n = m + 1 := ⟨n - 1, by omega⟩
  refine ⟨?_, ?_, ?_, ?_⟩
  · intro f helig
    have := retryAux_all_fail f caught isExc (m + 1) 0 0 (by omega)
      (fun j hj => by simpa using helig j hj)
    simpa [retryRun] using this
  · intro f k v hlt helig hok
    have := retryAux_succeeds f caught isExc v k (m + 1) 0 0 hlt
      (fun j hj => by simpa using helig j hj) (by simpa using hok)
    simpa [retryRun] using this
  · intro f e he hc
    simp [retryRun, retryAux, he, hc]
  · intro f e he hc hx
    simp [retryRun, retryAux, he, hc, hx]

/-- Witness for C5 at concrete inputs with `retries = 3`. -/
theorem C5_retry_spec_witness :
    retryRun (fun _ => (.error 5 : Except Nat Nat)) (fun _ => true)
        (fun e => e == 99) 3 = (.exceededRetries 5, 2) ∧
    retryRun (fun i => if i = 0 then .error 5 else (.ok 7 : Except Nat Nat))
        (fun _ => true) (fun e => e == 99) 3 = (.value 7, 1) ∧
    retryRun (fun _ => (.error 6 : Except Nat Nat)) (fun e => e == 5)
        (fun e => e == 99) 3 = (.raised 6, 0) ∧
    retryRun (fun _ => (.error 99 : Except Nat Nat)) (fun _ => true)
        (fun e => e == 99) 3 = (.raised 99, 0) := by
  refine ⟨?_, ?_, ?_, ?_⟩
  · obtain ⟨e, he, hr⟩ :=
      (C5_retry_spec (E := Nat) (α := Nat) (fun _ => true) (fun e => e == 99) 3
        (by decide)).1 (fun _ => .error 5)
        (fun i _ => ⟨5, rfl, rfl, rfl⟩)
    obtain rfl : (5 : Nat) = e := by injection he
    exact hr
  · refine (C5_retry_spec (fun _ => true) (fun e => e == 99) 3 (by decide)).2.1
      (fun i => if i = 0 then .error 5 else .ok 7) 1 7 (by decide) ?_ rfl
    intro i hi
    have : i = 0 := by omega
    subst this
    exact ⟨5, rfl, rfl, rfl⟩
  · exact (C5_retry_spec (fun e => e == 5) (fun e => e == 99) 3 (by decide)).2.2.1
      (fun _ => .error 6) 6 rfl rfl
  · exact (C5_retry_spec (fun _ => true) (fun e => e == 99) 3 (by decide)).2.2.2
      (fun _ => .error 99) 99 rfl rfl rfl

/-! ## C6: the chunked stream pipe -/

theorem take_append_drop_length (data : List Nat) (m : Nat) :
    data.take m ++ data.drop ((data.take m).length) = data := by
  rw [List.length_take]
  rcases Nat.le_total m data.length with h | h
  · rw [Nat.min_eq_left h]
    exact List.take_append_drop m data
  · rw [Nat.min_eq_right h, List.take_of_length_le h, List.drop_length,
      List.append_nil]

/-- The bytes written are exactly the consumed prefix of the input: written
followed by the remaining input reassembles the input. -/
theorem pipeAux_written_prefix (o : Nat → Nat) (amount : Int) :
    ∀ (fuel : Nat) (ra : Int) (data : List Nat) (i : Nat),
      (pipeAux o amount fuel ra data i).2.1 ++ (pipeAux o amount fuel ra data i).1 =
        data := by
  intro fuel
  induction fuel with
  | zero => intro ra data i; simp [pipeAux]
  | succ f ih =>
    intro ra data i
    by_cases hra : ra ≤ 0
    · simp [pipeAux, hra]
    · by_cases hch : data.take (min ra.toNat (o i)) = []
      · simp [pipeAux, hra, hch]
      · simp only [pipeAux, if_neg hra, if_neg hch]
        rw [List.append_assoc, ih]
        exact take_append_drop_length data (min ra.toNat (o i))

/-- Without a byte count (`amount < 0`), every read requests exactly the
chunk size. -/
theorem pipeAux_requests_chunkSize (o : Nat → Nat) (amount : Int) (cs : Nat)
    (hamt : amount < 0) :
    ∀ (fuel : Nat) (data : List Nat) (i : Nat),
      ∀ r ∈ (pipeAux o amount fuel (cs : Int) data i).2.2, r = cs := by
  intro fuel
  induction fuel with
  | zero => intro data i r hr; simp [pipeAux] at hr
  | succ f ih =>
    intro data i r hr
    by_cases hra : (cs : Int) ≤ 0
    · simp [pipeAux, hra] at hr
    · by_cases hch : data.take (min (cs : Int).toNat (o i)) = []
      · simp only [pipeAux, if_neg hra, if_pos hch, List.mem_singleton] at hr
        simpa using hr
      · simp only [pipeAux, if_neg hra, if_neg hch, List.mem_cons] at hr
        have hnotpos : ¬amount > 0 := by omega
        rcases hr with hr | hr
        · simpa using hr
        · exact ih (data.drop (data.take (min (cs : Int).toNat (o i))).length)
            (i + 1) r (by simpa [hnotpos] using hr)

/-- With a positive byte count, at most `readAmount` bytes are written. -/
theorem pipeAux_written_le (o : Nat → Nat) (amount : Int) (hamt : 0 < amount) :
    ∀ (fuel : Nat) (ra : Int) (data : List Nat) (i : Nat), 0 ≤ ra →
      ((pipeAux o amount fuel ra data i).2.1).length ≤ ra.toNat := by
  intro fuel
  induction fuel with
  | zero => intro ra data i _; simp [pipeAux]
  | succ f ih =>
    intro ra data i hra0
    by_cases hra : ra ≤ 0
    · simp [pipeAux, hra]
    · by_cases hch : data.take (min ra.toNat (o i)) = []
      · simp [pipeAux, hra, hch]
      · simp only [pipeAux, if_neg hra, if_neg hch, if_pos hamt]
        have hlen : (data.take (min ra.toNat (o i))).length ≤ ra.toNat := by
          rw [List.length_take]
          omega
        have hsub : (0 : Int) ≤ ra - (data.take (min ra.toNat (o i))).length := by
          omega
        have := ih (ra - (data.take (min ra.toNat (o i))).length)
          (data.drop (data.take (min ra.toNat (o i))).length) (i + 1) hsub
        simp only [List.length_append]
        omega

/-- Without a byte count, if the stream never produces an empty read before
its end and the chunk size is positive, the pipe consumes the whole input. -/
theorem pipeAux_consumes_all (o : Nat → Nat) (amount : Int) (cs : Nat)
    (hamt : amount < 0) (hcs : 1 ≤ cs) (ho : ∀ i, 1 ≤ o i) :
    ∀ (fuel : Nat) (data : List Nat) (i : Nat), data.length < fuel →
      (pipeAux o amount fuel (cs : Int) data i).1 = [] := by
  intro fuel
  induction fuel with
  | zero => intro data i h; omega
  | succ f ih =>
    intro data i hfuel
    have hra : ¬((cs : Int) ≤ 0) := by
      simp only [not_le]
      exact_mod_cast Nat.lt_of_lt_of_le Nat.zero_lt_one hcs
    cases data with
    | nil => simp [pipeAux, hra]
    | cons d ds =>
      have hmin : 1 ≤ min (cs : Int).toNat (o i) := by
        have := ho i
        simp only [Int.toNat_natCast]
        omega
      obtain ⟨mk, hmk⟩ : ∃ mk, min (cs : Int).toNat (o i) = mk + 1 :=
        ⟨min (cs : Int).toNat (o i) - 1, by omega⟩
      have hch : (d :: ds).take (min (cs : Int).toNat (o i)) ≠ [] := by
        rw [hmk]
        simp
      have hnotpos : ¬amount > 0 := by omega
      simp only [pipeAux, if_neg hra, if_neg hch, hnotpos, if_false]
      apply ih
      have : 1 ≤ ((d :: ds).take (min (cs : Int).toNat (o i))).length := by
        rw [hmk]
        simp
      simp only [List.length_drop]
      simp only [List.length_cons] at hfuel ⊢
      omega

/-- C6 counterexample.  With chunk size 2 and byte count 5,
`chunkedByteStreamPipe` issues a single read request of 5 bytes — the count
is **not** capped at the chunk size, refuting "each read requesting at most
the fixed chunk size". -/
theorem C6_counterexample :
    (chunkedByteStreamPipe (fun _ => 1000) [1, 2, 3, 4, 5, 6] 5 2).2.2 = [5] ∧
    ¬(∀ r ∈ (chunkedByteStreamPipe (fun _ => 1000) [1, 2, 3, 4, 5, 6] 5 2).2.2,
        r ≤ 2) := by
  constructor
  · rfl
  · decide

/-- C6 as amended.  `chunkedByteStreamPipe` copies input to output so that the
bytes written are exactly the consumed input prefix, in order; with no byte
count every read requests exactly the chunk size and (for a positive chunk
size and a stream with no empty reads) copying continues to EOF; with a
nonnegative byte count the reads request the remaining count — possibly more
than the chunk size — and at most that many bytes are copied in total; short
reads (the oracle) are accepted, and an empty read terminates the copy. -/
theorem C6_amended (o : Nat → Nat) (data : List Nat) (amount : Int) (cs : Nat) :
    ((chunkedByteStreamPipe o data amount cs).2.1 ++
      (chunkedByteStreamPipe o data amount cs).1 = data) ∧
    (amount < 0 → ∀ r ∈ (chunkedByteStreamPipe o data amount cs).2.2, r = cs) ∧
    (0 ≤ amount →
      ((chunkedByteStreamPipe o data amount cs).2.1).length ≤ amount.toNat) ∧
    (amount < 0 → 1 ≤ cs → (∀ i, 1 ≤ o i) →
      (chunkedByteStreamPipe o data amount cs).2.1 = data) := by
  refine ⟨?_, ?_, ?_, ?_⟩
  · exact pipeAux_written_prefix o amount (data.length + 1) _ data 0
  · intro hamt r hr
    rw [chunkedByteStreamPipe, if_pos hamt] at hr
    exact pipeAux_requests_chunkSize o amount cs hamt (data.length + 1) data 0 r hr
  · intro hamt
    by_cases h0 : amount = 0
    · subst h0
      simp [chunkedByteStreamPipe, pipeAux]
    · have hpos : 0 < amount := by omega
      simp only [chunkedByteStreamPipe, if_neg (by omega : ¬amount < 0)]
      exact pipeAux_written_le o amount hpos (data.length + 1) amount data 0 hamt
  · intro hamt hcs ho
    have h1 := pipeAux_written_prefix o amount (data.length + 1) (cs : Int) data 0
    have h2 := pipeAux_consumes_all o amount cs hamt hcs ho (data.length + 1)
      data 0 (by omega)
    simp only [chunkedByteStreamPipe, if_pos hamt] at h1 h2 ⊢
    rw [h2, List.append_nil] at h1
    exact h1

/-- Witness for C6 as amended at concrete inputs. -/
theorem C6_amended_witness :
    ((chunkedByteStreamPipe (fun _ => 3) [1, 2, 3, 4, 5] (-1) 2).2.1 ++
      (chunkedByteStreamPipe (fun _ => 3) [1, 2, 3, 4, 5] (-1) 2).1 = [1, 2, 3, 4, 5]) ∧
    (∀ r ∈ (chunkedByteStreamPipe (fun _ => 3) [1, 2, 3, 4, 5] (-1) 2).2.2, r = 2) ∧
    ((chunkedByteStreamPipe (fun _ => 3) [1, 2, 3, 4, 5] 4 2).2.1).length ≤ 4 ∧
    (chunkedByteStreamPipe (fun _ => 3) [1, 2, 3, 4, 5] (-1) 2).2.1 = [1, 2, 3, 4, 5] := by
  refine ⟨(C6_amended (fun _ => 3) [1, 2, 3, 4, 5] (-1) 2).1,
    (C6_amended (fun _ => 3) [1, 2, 3, 4, 5] (-1) 2).2.1 (by decide),
    ?_, (C6_amended (fun _ => 3) [1, 2, 3, 4, 5] (-1) 2).2.2.2 (by decide)
      (by decide) (fun i => by decide)⟩
  exact (C6_amended (fun _ => 3) [1, 2, 3, 4, 5] 4 2).2.2.1 (by decide)

/-! ## C10: `set` with an invalid content type is not atomic -/

/-- Whether the walk to `vec` reaches a file. -/
def isFileAt (n : Node) (vec : List String) : Bool :=
  match walkTo n vec with
  | .ok m => m.isFile
  | .error _ => false

/-- A `createAsWeGo` walk starting from a fresh directory builds a chain of
directories whose end is empty. -/
theorem createChain_walk (now : Int) :
    ∀ (rest : List String) (t : Int) (c2 : Node),
      updateAt true now (fun x => .ok x) (Node.dir t .nil) rest = .ok c2 →
      ∃ t2, walkTo c2 rest = .ok (Node.dir t2 .nil) := by
  intro rest
  induction rest with
  | nil =>
    intro t c2 h
    cases h
    exact ⟨t, rfl⟩
  | cons s rs ih =>
    intro t c2 h
    simp only [updateAt, lookupEntry, if_true] at h
    cases hu : updateAt true now (fun x => .ok x) (newDir now) rs with
    | error e => rw [hu] at h; simp [Except.map] at h
    | ok c3 =>
      rw [hu] at h
      simp only [Except.map] at h
      obtain ⟨t2, hw⟩ := ih now c3 hu
      cases h
      refine ⟨t2, ?_⟩
      simpa [walkTo, insertEntry, lookupEntry] using hw

/-- Every prefix of a freshly created directory chain is a directory. -/
theorem createChain_prefix (now : Int) :
    ∀ (rest : List String) (t : Int) (c2 : Node),
      updateAt true now (fun x => .ok x) (Node.dir t .nil) rest = .ok c2 →
      ∀ j, j ≤ rest.length →
        ∃ t2 es2, walkTo c2 (rest.take j) = .ok (.dir t2 es2) := by
  intro rest
  induction rest with
  | nil =>
    intro t c2 h j hj
    cases h
    have hj0 : j = 0 := by simpa using hj
    subst hj0
    exact ⟨t, .nil, rfl⟩
  | cons s rs ih =>
    intro t c2 h j hj
    simp only [updateAt, lookupEntry, if_true] at h
    cases hu : updateAt true now (fun x => .ok x) (newDir now) rs with
    | error e => rw [hu] at h; simp [Except.map] at h
    | ok c3 =>
      rw [hu] at h
      simp only [Except.map] at h
      cases h
      cases j with
      | zero => exact ⟨t, _, rfl⟩
      | succ j2 =>
        obtain ⟨t2, es2, hw⟩ := ih now c3 hu j2 (by simpa using hj)
        refine ⟨t2, es2, ?_⟩
        simpa [walkTo, insertEntry, lookupEntry, List.take] using hw

/-- After a successful `createAsWeGo` walk, every prefix of the walked path
that was previously missing now holds a directory. -/
theorem createWalk_dirs (now : Int) :
    ∀ (vec : List String) (n r : Node),
      updateAt true now (fun x => .ok x) n vec = .ok r →
      ∀ i, i ≤ vec.length → (∀ m, walkTo n (vec.take i) ≠ .ok m) →
      ∃ mt2 es2, walkTo r (vec.take i) = .ok (.dir mt2 es2) := by
  intro vec
  induction vec with
  | nil =>
    intro n r h i hi hmiss
    have hi0 : i = 0 := by simpa using hi
    subst hi0
    exact absurd rfl (hmiss n)
  | cons seg rest ih =>
    intro n r h i hi hmiss
    cases n with
    | file mt sz d => simp [updateAt] at h
    | dir mt es =>
      cases i with
      | zero => exact absurd rfl (hmiss (.dir mt es))
      | succ j =>
        simp only [updateAt] at h
        cases hl : lookupEntry es seg with
        | some child =>
          simp only [hl] at h
          cases hu : updateAt true now (fun x => .ok x) child rest with
          | error e => rw [hu] at h; simp [Except.map] at h
          | ok c3 =>
            rw [hu] at h
            simp only [Except.map] at h
            cases h
            have hmiss2 : ∀ m, walkTo child (rest.take j) ≠ .ok m := by
              intro m hm
              exact hmiss m (by simpa [walkTo, List.take, hl] using hm)
            obtain ⟨mt2, es2, hw⟩ := ih child c3 hu j (by simpa using hi) hmiss2
            refine ⟨mt2, es2, ?_⟩
            simpa [walkTo, List.take, lookup_insertEntry_self] using hw
        | none =>
          simp only [hl, if_true] at h
          cases hu : updateAt true now (fun x => .ok x) (newDir now) rest with
          | error e => rw [hu] at h; simp [Except.map] at h
          | ok c3 =>
            rw [hu] at h
            simp only [Except.map] at h
            cases h
            obtain ⟨t2, es2, hw⟩ :=
              createChain_prefix now rest now c3 hu j (by simpa using hi)
            refine ⟨t2, es2, ?_⟩
            simpa [walkTo, List.take, lookup_insertEntry_self] using hw

/-- A pure `createAsWeGo` walk never creates a file at any extension of the
walked path: whether `vec ++ [k]` holds a file is unchanged. -/
theorem createWalk_isFile (now : Int) (k : String) :
    ∀ (vec : List String) (n r : Node),
      updateAt true now (fun x => .ok x) n vec = .ok r →
      isFileAt r (vec ++ [k]) = isFileAt n (vec ++ [k]) := by
  intro vec
  induction vec with
  | nil =>
    intro n r h
    cases h
    rfl
  | cons seg rest ih =>
    intro n r h
    cases n with
    | file mt sz d => simp [updateAt] at h
    | dir mt es =>
      simp only [updateAt] at h
      cases hl : lookupEntry es seg with
      | some child =>
        simp only [hl] at h
        cases hu : updateAt true now (fun x => .ok x) child rest with
        | error e => rw [hu] at h; simp [Except.map] at h
        | ok c3 =>
          rw [hu] at h
          simp only [Except.map] at h
          cases h
          have := ih child c3 hu
          simpa [isFileAt, walkTo, lookup_insertEntry_self, hl] using this
      | none =>
        simp only [hl, if_true] at h
        cases hu : updateAt true now (fun x => .ok x) (newDir now) rest with
        | error e => rw [hu] at h; simp [Except.map] at h
        | ok c3 =>
          rw [hu] at h
          simp only [Except.map] at h
          cases h
          obtain ⟨t2, hw⟩ := createChain_walk now rest now c3 hu
          have hc3 : walkTo c3 (rest ++ [k]) = .error .osDoesNotExist := by
            rw [walkTo_append, hw]
            rfl
          simp [isFileAt, walkTo, lookup_insertEntry_self, hl, hc3]

/-- C10.  `set(p, content)` with a content that is neither bytes nor a
readable stream raises `TypeError` and creates no file at `p`, but is not
atomic: the post-error tree is exactly the tree after the
`createAsWeGo` walk, in which every previously missing ancestor prefix of
`p` has become a directory; whether `p` holds a file is unchanged. -/
theorem C10_set_type_error_not_atomic (now : Int) (root : Node) (p : String)
    (vec : List String) (r1 : Node)
    (hvec : splitPathE p = .ok vec) (hne : vec ≠ [])
    (hwalk : updateAt true now (fun x => .ok x) root vec.dropLast = .ok r1) :
    setOpFull now root p .other = (r1, some .typeErrorContent, .other) ∧
    (∀ i, i ≤ vec.dropLast.length →
      (∀ m, walkTo root (vec.dropLast.take i) ≠ .ok m) →
      ∃ mt2 es2, walkTo r1 (vec.dropLast.take i) = .ok (.dir mt2 es2)) ∧
    isfileOp r1 p = isfileOp root p := by
  have hp : p ≠ "" := by
    intro hp
    subst hp
    rw [show splitPathE "" = .ok [] from rfl] at hvec
    cases hvec
    exact hne rfl
  refine ⟨?_, ?_, ?_⟩
  · simp [setOpFull, hp, hvec, hne, hwalk]
  · exact createWalk_dirs now vec.dropLast root r1 hwalk
  · have hbridge : ∀ s : Node, isfileOp s p = isFileAt s vec := by
      intro s
      simp only [isfileOp, hvec, isFileAt]
    rw [hbridge, hbridge, ← List.dropLast_append_getLast hne]
    exact createWalk_isFile now (vec.getLast hne) vec.dropLast root r1 hwalk

/-- Witness for C10: `set("a/b", <invalid>)` on a fresh tree creates the
directory `a` and raises `TypeError`. -/
theorem C10_set_type_error_not_atomic_witness :
    setOpFull 0 freshRoot "a/b" .other =
      (Node.dir 0 (.cons "a" (newDir 0) .nil), some .typeErrorContent, .other) ∧
    isfileOp (Node.dir 0 (.cons "a" (newDir 0) .nil)) "a/b" =
      isfileOp freshRoot "a/b" := by
  have h := C10_set_type_error_not_atomic 0 freshRoot "a/b" ["a", "b"]
    (Node.dir 0 (.cons "a" (newDir 0) .nil)) (by decide) (by decide) rfl
  exact ⟨h.1, h.2.2⟩

/-! ## C9 as amended: `set` over an existing directory -/

/-- C9 as amended (restricted to paths with at least one nonempty component;
`set("")` and `set("/")` raise instead, see the counterexample).  When `p`
currently names a directory — possibly non-empty — `set(p, v)` succeeds and
replaces the directory node by a fresh file: afterwards `isfile(p)` is true,
`get(p)` returns `v`, and every strict descendant of `p` no longer exists. -/
theorem C9_amended_set_replaces_directory (now : Int) (root : Node) (p : String)
    (v : List Nat) (vec : List String)
    (hvec : splitPathE p = .ok vec) (hne : vec ≠ [])
    (hdir : isdirOp root p = true) :
    (setOp now root p (.bytes v)).2 = none ∧
    isfileOp (setOp now root p (.bytes v)).1 p = true ∧
    getOp (setOp now root p (.bytes v)).1 p = .ok v ∧
    (∀ q suffix, suffix ≠ [] → splitPathE q = .ok (vec ++ suffix) →
      existsOp (setOp now root p (.bytes v)).1 q = false) := by
  have hp : p ≠ "" := by
    intro hp
    subst hp
    rw [show splitPathE "" = .ok [] from rfl] at hvec
    cases hvec
    exact hne rfl
  -- the walk to `p` reaches a directory
  simp only [isdirOp, hvec] at hdir
  cases hw : walkTo root vec with
  | error e => rw [hw] at hdir; simp at hdir
  | ok m =>
    rw [hw] at hdir
    cases m with
    | file mt sz d => simp [Node.isDir] at hdir
    | dir mtd esd =>
      -- split off the last component and identify the parent directory
      have hsplit : vec.dropLast ++ [vec.getLast hne] = vec :=
        List.dropLast_append_getLast hne
      rw [← hsplit, walkTo_append] at hw
      cases hpw : walkTo root vec.dropLast with
      | error e => rw [hpw] at hw; simp at hw
      | ok P =>
        rw [hpw] at hw
        cases P with
        | file mtp szp dp => simp [walkTo] at hw
        | dir mtp esp =>
          simp only [walkTo] at hw
          cases hl : lookupEntry esp (vec.getLast hne) with
          | none => rw [hl] at hw; simp at hw
          | some child =>
            rw [hl] at hw
            -- the createAsWeGo walk over the existing parent path is the identity
            have hcreate := updateAt_pure_eq true now vec.dropLast root
              (.dir mtp esp) hpw
            -- the assignment into the parent directory
            obtain ⟨r, hu, hwr⟩ := updateAt_ok_of_walkTo true now
              (fun n => match n with
                | .dir mt es => .ok (.dir mt (insertEntry es (vec.getLast hne)
                    (newFile now (contentRead (Content.bytes v)).1)))
                | .file .. => .error .typeErrorItemAssign)
              vec.dropLast root (.dir mtp esp)
              (.dir mtp (insertEntry esp (vec.getLast hne)
                (newFile now (contentRead (Content.bytes v)).1)))
              hpw rfl
            simp only [setOp, setOpFull, hp, hvec, hne, hcreate, if_false,
              dif_neg, not_false_iff]
            split
            next r2 has =>
              have h12 : (Except.ok r : Except Err Node) = Except.ok r2 :=
                hu.symm.trans has
              cases h12
              have hwvec : walkTo r vec = .ok (newFile now v) := by
                rw [← hsplit, walkTo_append, hwr]
                simp [walkTo, lookup_insertEntry_self, contentRead]
              refine ⟨rfl, ?_, ?_, ?_⟩
              · simp [isfileOp, hvec, hwvec, newFile, Node.isFile]
              · simp [getOp, hvec, hwvec, newFile]
              · intro q suffix hsuf hq
                have hwq : walkTo r (vec ++ suffix) =
                    .error .osNotADirectory := by
                  rw [walkTo_append, hwvec]
                  cases suffix with
                  | nil => exact absurd rfl hsuf
                  | cons s rest => simp [walkTo, newFile]
                simp [existsOp, hq, hwq]
            next e has =>
              have h12 : (Except.ok r : Except Err Node) = Except.error e :=
                hu.symm.trans has
              cases h12

/-- Witness for C9 as amended: `set("d", v)` over the existing directory `d`
containing the file `x`. -/
theorem C9_amended_witness :
    ((setOp 3 (Node.dir 0 (.cons "d" (.dir 0 (.cons "x" (newFile 0 [9]) .nil)) .nil))
        "d" (.bytes [1, 2])).2 = none) ∧
    isfileOp (setOp 3 (Node.dir 0 (.cons "d" (.dir 0 (.cons "x" (newFile 0 [9]) .nil)) .nil))
        "d" (.bytes [1, 2])).1 "d" = true ∧
    getOp (setOp 3 (Node.dir 0 (.cons "d" (.dir 0 (.cons "x" (newFile 0 [9]) .nil)) .nil))
        "d" (.bytes [1, 2])).1 "d" = .ok [1, 2] ∧
    existsOp (setOp 3 (Node.dir 0 (.cons "d" (.dir 0 (.cons "x" (newFile 0 [9]) .nil)) .nil))
        "d" (.bytes [1, 2])).1 "d/x" = false := by
  have h := C9_amended_set_replaces_directory 3
    (Node.dir 0 (.cons "d" (.dir 0 (.cons "x" (newFile 0 [9]) .nil)) .nil))
    "d" [1, 2] ["d"] (by decide) (by decide) (by decide)
  exact ⟨h.1, h.2.1, h.2.2.1, h.2.2.2 "d/x" ["x"] (by decide) (by decide)⟩

/-! ## C2 as amended: where the stream checks live -/

/-- C2 as amended.  The shared check helpers `_checkByteStreamForSet` /
`_checkByteStreamForGet` (called by the S3 and FTP backends and by the cached
wrapper's `getInto`) reject a non-seekable stream with `TypeError` and a
seekable stream at nonzero position with `ValueError`, and accept a seekable
stream at position 0.  The in-memory backend performs no such checks: its
`set` succeeds on a stream at any position, reading from the current
position, and its `getInto` writes at the target's current position without
rewinding, so the target's contents equal `get(p)` when the target is an
empty stream at position 0. -/
theorem C2_amended_stream_checks :
    (∀ s : ByteStream, s.seekable = false →
      checkByteStreamForSet s = some .typeErrorNotSeekable ∧
      checkByteStreamForGet s = some .typeErrorNotSeekable) ∧
    (∀ s : ByteStream, s.seekable = true → s.pos ≠ 0 →
      checkByteStreamForSet s = some .valueErrorPosition ∧
      checkByteStreamForGet s = some .valueErrorPosition) ∧
    (∀ s : ByteStream, s.seekable = true → s.pos = 0 →
      checkByteStreamForSet s = none ∧ checkByteStreamForGet s = none) ∧
    (∀ (now : Int) (root : Node) (p : String) (st : ByteStream),
      (setOpFull now root p (.stream st)).2.1 = none →
      getOp (setOpFull now root p (.stream st)).1 p = .ok (st.data.drop st.pos)) ∧
    (∀ (root : Node) (p : String) (d : List Nat) (sk : Bool),
      getOp root p = .ok d →
      getIntoOp root p ⟨[], 0, sk⟩ = .ok ⟨d, d.length, sk⟩) := by
  refine ⟨?_, ?_, ?_, ?_, ?_⟩
  · intro s hs
    constructor <;> simp [checkByteStreamForSet, checkByteStreamForGet, hs]
  · intro s hs hp
    constructor <;> simp [checkByteStreamForSet, checkByteStreamForGet, hs, hp]
  · intro s hs hp
    constructor <;> simp [checkByteStreamForSet, checkByteStreamForGet, hs, hp]
  · intro now root p st h
    have := (setOpFull_success now root p (.stream st) h).1
    simpa [contentRead, ByteStream.readAll] using this
  · intro root p d sk hget
    simp only [getOp] at hget
    cases hsp : splitPathE p with
    | error e => simp only [hsp] at hget; cases hget
    | ok vec =>
      simp only [hsp] at hget
      cases hw : walkTo root vec with
      | error e => simp only [hw] at hget; cases hget
      | ok n =>
        simp only [hw] at hget
        cases n with
        | dir mt es => simp at hget
        | file mt sz data =>
          simp only [Except.ok.injEq] at hget
          subst hget
          simp [getIntoOp, hsp, hw, ByteStream.write]

/-- Witness for C2 as amended at concrete streams and trees. -/
theorem C2_amended_stream_checks_witness :
    (checkByteStreamForSet ⟨[], 0, false⟩ = some .typeErrorNotSeekable ∧
      checkByteStreamForGet ⟨[], 0, false⟩ = some .typeErrorNotSeekable) ∧
    (checkByteStreamForSet ⟨[1], 1, true⟩ = some .valueErrorPosition ∧
      checkByteStreamForGet ⟨[1], 1, true⟩ = some .valueErrorPosition) ∧
    (checkByteStreamForSet ⟨[1], 0, true⟩ = none ∧
      checkByteStreamForGet ⟨[1], 0, true⟩ = none) ∧
    getOp (setOpFull 0 freshRoot "f" (.stream ⟨[5, 6, 7], 1, true⟩)).1 "f" =
      .ok [6, 7] ∧
    getIntoOp c2root "f" ⟨[], 0, true⟩ = .ok ⟨[7], 1, true⟩ := by
  refine ⟨C2_amended_stream_checks.1 ⟨[], 0, false⟩ rfl,
    C2_amended_stream_checks.2.1 ⟨[1], 1, true⟩ rfl (by decide),
    C2_amended_stream_checks.2.2.1 ⟨[1], 0, true⟩ rfl rfl, ?_, ?_⟩
  · exact C2_amended_stream_checks.2.2.2.1 0 freshRoot "f" ⟨[5, 6, 7], 1, true⟩ rfl
  · exact C2_amended_stream_checks.2.2.2.2 c2root "f" [7] true (by rfl)

/-! ## C7: the cloning wrapper -/

/-- The front tree of the C7 counterexample: `a` is a file. -/
def c7front : Node := .dir 0 (.cons "a" (newFile 0 [9]) .nil)

/-- The back tree of the C7 counterexample: `a/b/c` is a file `[7]`. -/
def c7back : Node :=
  .dir 0 (.cons "a"
    (.dir 0 (.cons "b" (.dir 0 (.cons "c" (newFile 0 [7]) .nil)) .nil)) .nil)

/-- C7 counterexample.  `"a/b/c"` is present only in back (front has no node
there), the composite `get` returns back's content, but front does **not**
subsequently contain it: the front write fails with an `OSError` (front's
`a` is a file) which `CloningFileSystem.get` swallows with a log warning. -/
theorem C7_counterexample :
    cloningGet 0 ⟨c7front, c7back⟩ "a/b/c" = (⟨c7front, c7back⟩, .ok [7]) ∧
    existsOp c7front "a/b/c" = false ∧
    isfileOp (cloningGet 0 ⟨c7front, c7back⟩ "a/b/c").1.front "a/b/c" = false :=
  ⟨rfl, rfl, rfl⟩

/-- C7 as amended.  For the cloning wrapper over in-memory front and back:
a successful composite `set` with bytes leaves the payload in both front and
back; a successful composite `set` with a seekable stream writes the bytes
from the recorded position into back first, restores the position, and
writes the same bytes into front; composite `get` of a path absent from
front fetches back's content and, when the front write succeeds, front
subsequently contains it; when the front write fails with an `OSError`, the
error is swallowed and the composite `get` still returns back's content. -/
theorem C7_amended_cloning (now : Int) (st : CloningState) (p : String) :
    (∀ (v : List Nat) (st2 : CloningState),
      cloningSet now st p (.bytes v) = (st2, none) →
      getOp st2.front p = .ok v ∧ getOp st2.back p = .ok v) ∧
    (∀ (s : ByteStream) (st2 : CloningState), s.seekable = true →
      cloningSet now st p (.stream s) = (st2, none) →
      getOp st2.front p = .ok (s.data.drop s.pos) ∧
      getOp st2.back p = .ok (s.data.drop s.pos)) ∧
    (∀ v : List Nat, existsOp st.front p = false → getOp st.back p = .ok v →
      (setOpFull now st.front p (.bytes v)).2.1 = none →
      cloningGet now st p =
        (⟨(setOpFull now st.front p (.bytes v)).1, st.back⟩, .ok v) ∧
      getOp (setOpFull now st.front p (.bytes v)).1 p = .ok v) ∧
    (∀ (v : List Nat) (e : Err), existsOp st.front p = false →
      getOp st.back p = .ok v →
      (setOpFull now st.front p (.bytes v)).2.1 = some e → e.isOSError = true →
      (cloningGet now st p).2 = .ok v) := by
  refine ⟨?_, ?_, ?_, ?_⟩
  · intro v st2 h
    simp only [cloningSet] at h
    split at h
    next b e c1 heq => simp at h
    next b c1 heq =>
      simp only [Prod.mk.injEq] at h
      obtain ⟨hst2, hfr⟩ := h
      have hbnone : (setOpFull now st.back p (.bytes v)).2.1 = none := by
        rw [heq]
      have hback := (setOpFull_success now st.back p (.bytes v) hbnone).1
      have hfront := (setOpFull_success now st.front p (.bytes v) hfr).1
      subst hst2
      constructor
      · simpa [contentRead] using hfront
      · have hb1 : (setOpFull now st.back p (.bytes v)).1 = b := by rw [heq]
        rw [← hb1]
        simpa [contentRead] using hback
  · intro s st2 hseek h
    simp only [cloningSet, hseek, if_true] at h
    split at h
    next b e c1 heq => simp at h
    next b c1 heq =>
      have hbnone : (setOpFull now st.back p (.stream s)).2.1 = none := by
        rw [heq]
      have hbackspec := setOpFull_success now st.back p (.stream s) hbnone
      have hc1 : c1 = .stream ⟨s.data, s.data.length, s.seekable⟩ := by
        have h5 := hbackspec.2.2.2.2
        rw [heq] at h5
        simpa [contentRead, ByteStream.readAll] using h5
      subst hc1
      simp only [ByteStream.seek, Prod.mk.injEq] at h
      obtain ⟨hst2, hfr⟩ := h
      have hfront := (setOpFull_success now st.front p
        (.stream ⟨s.data, s.pos, s.seekable⟩) hfr).1
      subst hst2
      constructor
      · simpa [contentRead, ByteStream.readAll] using hfront
      · have hb1 : (setOpFull now st.back p (.stream s)).1 = b := by rw [heq]
        rw [← hb1]
        simpa [contentRead, ByteStream.readAll] using hbackspec.1
  · intro v hex hback hfr
    have hgetset := (setOpFull_success now st.front p (.bytes v) hfr).1
    have hif : ¬(existsOp st.front p = true) := by simp [hex]
    constructor
    · simp only [cloningGet, if_neg hif, hback]
      split
      next f c2 heq =>
        have hf : (setOpFull now st.front p (.bytes v)).1 = f := by rw [heq]
        rw [← hf]
      next f e2 c2 heq =>
        rw [heq] at hfr
        simp at hfr
    · simpa [contentRead] using hgetset
  · intro v e hex hback hsome hos
    have hif : ¬(existsOp st.front p = true) := by simp [hex]
    simp only [cloningGet, if_neg hif, hback]
    split
    next f c2 heq => rfl
    next f e2 c2 heq =>
      have hx := congrArg (fun x => x.2.1) heq
      simp only at hx
      rw [hsome] at hx
      have he2 : e2 = e := (Option.some.inj hx).symm
      subst he2
      simp [hos]

/-- Witness for C7 as amended at concrete states. -/
theorem C7_amended_cloning_witness :
    (getOp (cloningSet 3 ⟨freshRoot, freshRoot⟩ "w" (.bytes [1])).1.front "w" =
        .ok [1] ∧
      getOp (cloningSet 3 ⟨freshRoot, freshRoot⟩ "w" (.bytes [1])).1.back "w" =
        .ok [1]) ∧
    (getOp (cloningSet 3 ⟨freshRoot, freshRoot⟩ "w"
          (.stream ⟨[8, 9], 1, true⟩)).1.front "w" = .ok [9] ∧
      getOp (cloningSet 3 ⟨freshRoot, freshRoot⟩ "w"
          (.stream ⟨[8, 9], 1, true⟩)).1.back "w" = .ok [9]) ∧
    (cloningGet 3 ⟨freshRoot, .dir 0 (.cons "b" (newFile 0 [4]) .nil)⟩ "b" =
      (⟨(setOpFull 3 freshRoot "b" (.bytes [4])).1,
        .dir 0 (.cons "b" (newFile 0 [4]) .nil)⟩, .ok [4])) ∧
    (cloningGet 0 ⟨c7front, c7back⟩ "a/b/c").2 = .ok [7] := by
  refine ⟨?_, ?_, ?_, ?_⟩
  · exact (C7_amended_cloning 3 ⟨freshRoot, freshRoot⟩ "w").1 [1]
      (cloningSet 3 ⟨freshRoot, freshRoot⟩ "w" (.bytes [1])).1 (by rfl)
  · exact (C7_amended_cloning 3 ⟨freshRoot, freshRoot⟩ "w").2.1
      ⟨[8, 9], 1, true⟩
      (cloningSet 3 ⟨freshRoot, freshRoot⟩ "w" (.stream ⟨[8, 9], 1, true⟩)).1
      rfl (by rfl)
  · exact ((C7_amended_cloning 3
      ⟨freshRoot, .dir 0 (.cons "b" (newFile 0 [4]) .nil)⟩ "b").2.2.1 [4]
      rfl rfl rfl).1
  · exact (C7_amended_cloning 0 ⟨c7front, c7back⟩ "a/b/c").2.2.2 [7]
      .osNotADirectory rfl rfl rfl rfl

/-! ## Supporting lemmas: the `rm` contract away from the `/` bug

These back the assessment of the `rm` claim: apart from the root alias `/`
(see `C4_inmem_rm_slash_raises_IndexError`), `InMemFileSystem.rm` behaves as
documented — it removes an existing file so that `exists`/`isfile`/`isdir`
all become false and a second `rm` raises `OSError`; `rm` of an absent path
raises `OSError`; and `rm` of a non-empty directory raises `OSError` leaving
the tree unchanged. -/

theorem lookup_eraseEntry_self : ∀ (es : EntryList) (k : String),
    lookupEntry (eraseEntry es k) k = none
  | .nil, k => rfl
  | .cons k' v rest, k => by
    by_cases h : k' = k
    · simp [eraseEntry, h, lookup_eraseEntry_self rest k]
    · simp [eraseEntry, h, lookupEntry, lookup_eraseEntry_self rest k]

/-- When the walk reaches `m` and `f m` fails, `updateAt` fails the same way. -/
theorem updateAt_error_at (cr : Bool) (now : Int) (f : Node → Except Err Node)
    (e : Err) : ∀ (vec : List String) (n m : Node),
      walkTo n vec = .ok m → f m = .error e →
      updateAt cr now f n vec = .error e := by
  intro vec
  induction vec with
  | nil =>
    intro n m h hf
    cases h
    exact hf
  | cons seg rest ih =>
    intro n m h hf
    cases n with
    | file mt sz d => simp [walkTo] at h
    | dir mt es =>
      simp only [walkTo] at h
      cases hl : lookupEntry es seg with
      | none => rw [hl] at h; simp at h
      | some child =>
        rw [hl] at h
        simp [updateAt, hl, ih child m h hf, Except.map]

/-- When the walk itself fails without creation, `updateAt false` fails with
the same exception. -/
theorem updateAt_error_of_walkTo_error (now : Int) (f : Node → Except Err Node)
    (e : Err) : ∀ (vec : List String) (n : Node),
      walkTo n vec = .error e → updateAt false now f n vec = .error e := by
  intro vec
  induction vec with
  | nil => intro n h; simp [walkTo] at h
  | cons seg rest ih =>
    intro n h
    cases n with
    | file mt sz d =>
      simp only [walkTo] at h
      cases h
      rfl
    | dir mt es =>
      simp only [walkTo] at h
      cases hl : lookupEntry es seg with
      | none =>
        rw [hl] at h
        cases h
        simp [updateAt, hl]
      | some child =>
        rw [hl] at h
        simp [updateAt, hl, ih child h, Except.map]

/-- The only exception `splitPath` raises is the invalid-path `OSError`. -/
theorem splitPathE_error_eq (p : String) (e : Err)
    (h : splitPathE p = .error e) : e = .osInvalidPath := by
  simp only [splitPathE] at h
  split at h
  · cases h
  · split at h
    · cases h
      rfl
    · cases h

/-- The only exceptions `_walkTo` raises are `OSError`s. -/
theorem walkTo_error_isOSError : ∀ (vec : List String) (n : Node) (e : Err),
    walkTo n vec = .error e → e.isOSError = true := by
  intro vec
  induction vec with
  | nil => intro n e h; simp [walkTo] at h
  | cons seg rest ih =>
    intro n e h
    cases n with
    | file mt sz d =>
      simp only [walkTo] at h
      cases h
      rfl
    | dir mt es =>
      simp only [walkTo] at h
      cases hl : lookupEntry es seg with
      | none =>
        rw [hl] at h
        cases h
        rfl
      | some child =>
        rw [hl] at h
        exact ih child e h

/-- `rm` of an existing file (under a directory root): the removal succeeds,
afterwards `exists`/`isfile`/`isdir` are all false at the path, and a second
`rm` raises the `OSError` "does not exist". -/
theorem rmOp_file_spec (root : Node) (p : String) (vec : List String)
    (hroot : root.isDir = true) (hvec : splitPathE p = .ok vec)
    (hfile : isfileOp root p = true) :
    (rmOp root p).2 = none ∧
    existsOp (rmOp root p).1 p = false ∧
    isfileOp (rmOp root p).1 p = false ∧
    isdirOp (rmOp root p).1 p = false ∧
    rmOp (rmOp root p).1 p = ((rmOp root p).1, some .osRmDoesNotExist) := by
  simp only [isfileOp, hvec] at hfile
  cases hw : walkTo root vec with
  | error e => rw [hw] at hfile; simp at hfile
  | ok m =>
    rw [hw] at hfile
    cases m with
    | dir mt es => simp [Node.isFile] at hfile
    | file mtf szf df =>
      have hne : vec ≠ [] := by
        intro hv
        subst hv
        cases hw
        simp [Node.isDir] at hroot
      have hp : p ≠ "" := by
        intro hp
        subst hp
        rw [show splitPathE "" = .ok [] from rfl] at hvec
        cases hvec
        exact hne rfl
      have hsplit : vec.dropLast ++ [vec.getLast hne] = vec :=
        List.dropLast_append_getLast hne
      rw [← hsplit, walkTo_append] at hw
      cases hpw : walkTo root vec.dropLast with
      | error e => rw [hpw] at hw; simp at hw
      | ok P =>
        rw [hpw] at hw
        cases P with
        | file mtp szp dp => simp [walkTo] at hw
        | dir mtp esp =>
          simp only [walkTo] at hw
          cases hl : lookupEntry esp (vec.getLast hne) with
          | none => rw [hl] at hw; simp at hw
          | some child =>
            rw [hl] at hw
            simp only [Except.ok.injEq] at hw
            subst hw
            obtain ⟨r, hu, hwr⟩ := updateAt_ok_of_walkTo false 0
              (fun n => match n with
                | .file .. => .error Err.osRmDoesNotExist
                | .dir mt es =>
                  match lookupEntry es (vec.getLast hne) with
                  | none => .error Err.osRmDoesNotExist
                  | some child =>
                    match child with
                    | .file .. => .ok (.dir mt (eraseEntry es (vec.getLast hne)))
                    | .dir _ ces =>
                        if ces.isEmpty then
                          .ok (.dir mt (eraseEntry es (vec.getLast hne)))
                        else .error Err.osNotEmpty)
              vec.dropLast root (.dir mtp esp)
              (.dir mtp (eraseEntry esp (vec.getLast hne)))
              hpw (by simp [hl])
            have hr : rmOp root p = (r, none) := by
              simp only [rmOp, hp, hvec, hne, if_false, dif_neg, not_false_iff]
              split
              next r2 has =>
                have h12 : (Except.ok r : Except Err Node) = Except.ok r2 :=
                  hu.symm.trans has
                cases h12
                rfl
              next e has =>
                have h12 : (Except.ok r : Except Err Node) = Except.error e :=
                  hu.symm.trans has
                cases h12
            have hwvec : walkTo r vec = .error .osDoesNotExist := by
              rw [← hsplit, walkTo_append, hwr]
              simp [walkTo, lookup_eraseEntry_self]
            rw [hr]
            refine ⟨rfl, ?_, ?_, ?_, ?_⟩
            · simp [existsOp, hvec, hwvec]
            · simp [isfileOp, hvec, hwvec]
            · simp [isdirOp, hvec, hwvec]
            · have herr : updateAt false 0
                  (fun n => match n with
                    | .file .. => .error Err.osRmDoesNotExist
                    | .dir mt es =>
                      match lookupEntry es (vec.getLast hne) with
                      | none => .error Err.osRmDoesNotExist
                      | some child =>
                        match child with
                        | .file .. => .ok (.dir mt (eraseEntry es (vec.getLast hne)))
                        | .dir _ ces =>
                            if ces.isEmpty then
                              .ok (.dir mt (eraseEntry es (vec.getLast hne)))
                            else .error Err.osNotEmpty)
                  r vec.dropLast = .error .osRmDoesNotExist := by
                apply updateAt_error_at _ _ _ _ _ _
                  (.dir mtp (eraseEntry esp (vec.getLast hne))) hwr
                simp [lookup_eraseEntry_self]
              simp only [rmOp, hp, hvec, hne, if_false, dif_neg, not_false_iff]
              split
              next r2 has =>
                have h12 : (Except.error Err.osRmDoesNotExist : Except Err Node) =
                    Except.ok r2 := herr.symm.trans has
                cases h12
              next e has =>
                have h12 : (Except.error Err.osRmDoesNotExist : Except Err Node) =
                    Except.error e := herr.symm.trans has
                cases h12
                rfl

/-- `rm` of an absent path raises an `OSError` and leaves the tree
unchanged. -/
theorem rmOp_absent_raises (root : Node) (p : String) (hp : p ≠ "")
    (hex : existsOp root p = false) :
    (rmOp root p).1 = root ∧
    ∃ e, (rmOp root p).2 = some e ∧ e.isOSError = true := by
  cases hsp : splitPathE p with
  | error e =>
    have he := splitPathE_error_eq p e hsp
    subst he
    exact ⟨by simp [rmOp, hp, hsp], .osInvalidPath, by simp [rmOp, hp, hsp], rfl⟩
  | ok vec =>
    simp only [existsOp, hsp] at hex
    have hne : vec ≠ [] := by
      intro hv
      subst hv
      simp [walkTo] at hex
    cases hpw : walkTo root vec.dropLast with
    | error e =>
      have := updateAt_error_of_walkTo_error 0
        (fun n => match n with
          | .file .. => .error Err.osRmDoesNotExist
          | .dir mt es =>
            match lookupEntry es (vec.getLast hne) with
            | none => .error Err.osRmDoesNotExist
            | some child =>
              match child with
              | .file .. => .ok (.dir mt (eraseEntry es (vec.getLast hne)))
              | .dir _ ces =>
                  if ces.isEmpty then
                    .ok (.dir mt (eraseEntry es (vec.getLast hne)))
                  else .error Err.osNotEmpty)
        e vec.dropLast root hpw
      constructor
      · simp [rmOp, hp, hsp, hne, this]
      · refine ⟨e, ?_, walkTo_error_isOSError vec.dropLast root e hpw⟩
        simp [rmOp, hp, hsp, hne, this]
    | ok P =>
      have hfe : ((fun n => match n with
          | .file .. => .error Err.osRmDoesNotExist
          | .dir mt es =>
            match lookupEntry es (vec.getLast hne) with
            | none => .error Err.osRmDoesNotExist
            | some child =>
              match child with
              | .file .. => .ok (.dir mt (eraseEntry es (vec.getLast hne)))
              | .dir _ ces =>
                  if ces.isEmpty then
                    .ok (.dir mt (eraseEntry es (vec.getLast hne)))
                  else .error Err.osNotEmpty) : Node → Except Err Node) P =
            .error Err.osRmDoesNotExist := by
        cases P with
        | file mt sz d => rfl
        | dir mt es =>
          cases hl : lookupEntry es (vec.getLast hne) with
          | none => simp [hl]
          | some child =>
            exfalso
            have hwv : walkTo root vec = .ok child := by
              rw [← List.dropLast_append_getLast hne, walkTo_append, hpw]
              simp [walkTo, hl]
            rw [hwv] at hex
            simp at hex
      have herr := updateAt_error_at false 0
        (fun n => match n with
          | .file .. => .error Err.osRmDoesNotExist
          | .dir mt es =>
            match lookupEntry es (vec.getLast hne) with
            | none => .error Err.osRmDoesNotExist
            | some child =>
              match child with
              | .file .. => .ok (.dir mt (eraseEntry es (vec.getLast hne)))
              | .dir _ ces =>
                  if ces.isEmpty then
                    .ok (.dir mt (eraseEntry es (vec.getLast hne)))
                  else .error Err.osNotEmpty)
        Err.osRmDoesNotExist vec.dropLast root P hpw hfe
      constructor
      · simp [rmOp, hp, hsp, hne, herr]
      · exact ⟨.osRmDoesNotExist, by simp [rmOp, hp, hsp, hne, herr], rfl⟩

/-- `rm` of a non-empty directory raises the "Directory not empty" `OSError`
and leaves the tree (with all its contents) unchanged. -/
theorem rmOp_nonempty_dir (root : Node) (p : String) (vec : List String)
    (mt : Int) (es : EntryList) (hvec : splitPathE p = .ok vec) (hne : vec ≠ [])
    (hw : walkTo root vec = .ok (.dir mt es)) (hfull : es.isEmpty = false) :
    rmOp root p = (root, some .osNotEmpty) := by
  have hp : p ≠ "" := by
    intro hp
    subst hp
    rw [show splitPathE "" = .ok [] from rfl] at hvec
    cases hvec
    exact hne rfl
  rw [← List.dropLast_append_getLast hne, walkTo_append] at hw
  cases hpw : walkTo root vec.dropLast with
  | error e => rw [hpw] at hw; simp at hw
  | ok P =>
    rw [hpw] at hw
    cases P with
    | file mtp szp dp => simp [walkTo] at hw
    | dir mtp esp =>
      simp only [walkTo] at hw
      cases hl : lookupEntry esp (vec.getLast hne) with
      | none => rw [hl] at hw; simp at hw
      | some child =>
        rw [hl] at hw
        simp only [Except.ok.injEq] at hw
        subst hw
        have herr := updateAt_error_at false 0
          (fun n => match n with
            | .file .. => .error Err.osRmDoesNotExist
            | .dir mt2 es2 =>
              match lookupEntry es2 (vec.getLast hne) with
              | none => .error Err.osRmDoesNotExist
              | some child =>
                match child with
                | .file .. => .ok (.dir mt2 (eraseEntry es2 (vec.getLast hne)))
                | .dir _ ces =>
                    if ces.isEmpty then
                      .ok (.dir mt2 (eraseEntry es2 (vec.getLast hne)))
                    else .error Err.osNotEmpty)
          Err.osNotEmpty vec.dropLast root (.dir mtp esp) hpw
          (by simp [hl, hfull])
        simp [rmOp, hp, hvec, hne, herr]

end FSRepo
